import Mathlib

/-!
Verification of the AASLD guideline scraping and cleaning pipeline
(`Data_Extraction.py` and `clean_data.py`).

The Python code is shallowly embedded: strings are `List Char` under a
`String` wrapper, each regular-expression substitution used by the code is
implemented as a bespoke executable scanner that is faithful to the Python
`re` semantics of that concrete pattern (left-to-right scan, non-overlapping
matches, the greedy/lazy behaviour of the individual pattern), and the
character classes `\s`, `\d`, `[a-z]`, `[A-Z]` are modelled over their ASCII
ranges (all inputs handled by the pipeline and by the claims are ASCII or
the few fixed unicode operator characters appearing in the patterns).
-/

/-! ## Character classes (ASCII models of the Python classes) -/

/-- ASCII model of the Python whitespace class `\s` / `str.strip` set. -/
def pyWs (c : Char) : Bool :=
  c = ' ' || c = '\t' || c = '\n' || c = '\r' || c = '\x0b' || c = '\x0c'

/-- The regex class `[a-z]`. -/
def lowAZ (c : Char) : Bool := 'a' ≤ c && c ≤ 'z'

/-- The regex class `[A-Z]`. -/
def upAZ (c : Char) : Bool := 'A' ≤ c && c ≤ 'Z'

/-- The regex class `[\.!?]` (sentence-ending punctuation). -/
def sentC (c : Char) : Bool := c = '.' || c = '!' || c = '?'

/-- The regex class `\d`. -/
def pyDigit (c : Char) : Bool := '0' ≤ c && c ≤ '9'

/-- ASCII lower-casing, as used by `str.lower` and `re.IGNORECASE`. -/
def lowerC (c : Char) : Char :=
  if 'A' ≤ c && c ≤ 'Z' then Char.ofNat (c.toNat + 32) else c

/-! ## Generic list-of-characters helpers -/

/-- `startsWithL pat l`: `l` starts with `pat` (Python `str.startswith`). -/
def startsWithL : List Char → List Char → Bool
  | [], _ => true
  | _ :: _, [] => false
  | p :: ps, c :: cs => p = c && startsWithL ps cs

/-- Case-insensitive version of `startsWithL` (ASCII `re.IGNORECASE`). -/
def ciStartsWith : List Char → List Char → Bool
  | [], _ => true
  | _ :: _, [] => false
  | p :: ps, c :: cs => lowerC p = lowerC c && ciStartsWith ps cs

/-- Python's substring test `needle in hay`. -/
def containsL (needle : List Char) : List Char → Bool
  | [] => needle.isEmpty
  | c :: cs => startsWithL needle (c :: cs) || containsL needle cs

/-- Python `str.endswith`. -/
def endsWithL (needle hay : List Char) : Bool :=
  startsWithL needle.reverse hay.reverse

/-- Python `str.rstrip("/")`: drop all trailing `/` characters. -/
def dropTrailing (d : Char) : List Char → List Char
  | [] => []
  | c :: cs =>
    let r := dropTrailing d cs
    if r.isEmpty && c = d then [] else c :: r

/-- Python `str.strip()` trailing part: drop all trailing whitespace. -/
def dropTrailingWs : List Char → List Char
  | [] => []
  | c :: cs =>
    if (dropTrailingWs cs).isEmpty && pyWs c then [] else c :: dropTrailingWs cs

/-- Python `str.strip()` on a character list. -/
def pyStripL (l : List Char) : List Char :=
  dropTrailingWs (l.dropWhile (fun c => pyWs c))

/-- Python `str.strip()` on strings. -/
def pyStrip (s : String) : String := ⟨pyStripL s.data⟩

/-! ## `Data_Extraction.clean_url`

Source: `def clean_url(u): return u.split("#")[0].rstrip("/")`. -/

/-- `u.split("#")[0]`: everything before the first `#` (whole string if none). -/
def splitHashHead (l : List Char) : List Char :=
  l.takeWhile (fun c => c ≠ '#')

/-- Embedding of `Data_Extraction.clean_url`. -/
def clean_url (u : String) : String :=
  ⟨dropTrailing '/' (splitHashHead u.data)⟩

lemma splitHashHead_cons_ne {c : Char} (h : ¬c = '#') (l : List Char) :
    splitHashHead (c :: l) = c :: splitHashHead l := by
  simp [splitHashHead, List.takeWhile_cons, h]

lemma splitHashHead_cons_hash (l : List Char) :
    splitHashHead ('#' :: l) = [] := by
  simp [splitHashHead, List.takeWhile_cons]

lemma splitHashHead_append_hash (u frag : List Char) :
    splitHashHead (u ++ '#' :: frag) = splitHashHead u := by
  induction u with
  | nil => simp [splitHashHead_cons_hash, splitHashHead]
  | cons c u ih =>
    by_cases h : c = '#'
    · subst h; simp [splitHashHead_cons_hash]
    · rw [List.cons_append, splitHashHead_cons_ne h, splitHashHead_cons_ne h, ih]

lemma dropTrailing_append_self (d : Char) (l : List Char) :
    dropTrailing d (l ++ [d]) = dropTrailing d l := by
  induction l with
  | nil => simp [dropTrailing]
  | cons c cs ih => simp [dropTrailing, ih]

lemma dropTrailing_splitHash_slash (u : List Char) :
    dropTrailing '/' (splitHashHead (u ++ ['/'])) =
      dropTrailing '/' (splitHashHead u) := by
  induction u with
  | nil => simp [splitHashHead, dropTrailing]
  | cons c u ih =>
    by_cases h : c = '#'
    · subst h; simp [splitHashHead_cons_hash]
    · rw [List.cons_append, splitHashHead_cons_ne h, splitHashHead_cons_ne h]
      simp only [dropTrailing, ih]

lemma string_data_append (s t : String) : (s ++ t).data = s.data ++ t.data := rfl

/-- C9: URL canonicalization absorbs fragments and trailing slashes:
`clean_url (u ++ "#" ++ frag) = clean_url u` and
`clean_url (u ++ "/") = clean_url u` for every `u` and `frag`. -/
theorem clean_url_canonicalization (u frag : String) :
    clean_url (u ++ "#" ++ frag) = clean_url u ∧
      clean_url (u ++ "/") = clean_url u := by
  constructor
  · show (⟨_⟩ : String) = ⟨_⟩
    congr 1
    rw [string_data_append, string_data_append]
    rw [show ("#" : String).data = ['#'] from rfl, List.append_assoc]
    show dropTrailing '/' (splitHashHead (u.data ++ '#' :: frag.data)) = _
    rw [splitHashHead_append_hash]
  · show (⟨_⟩ : String) = ⟨_⟩
    congr 1
    rw [string_data_append]
    exact dropTrailing_splitHash_slash u.data

/-! ## `clean_data.AASLDDataCleaner.clean_text`

Each `re.sub` of `clean_text` is embedded as an executable scanner.
Navigation patterns are literals except two of the form `pre.*post`
(`.` not matching a newline, greedy, no DOTALL flag). -/

/-- A navigation/boilerplate pattern: a literal, or `pre.*post`. -/
inductive NavPat
  | lit (s : String)
  | around (pre post : String)

/-- The `NAVIGATION_PATTERNS` list of `clean_data.py`, in source order. -/
def NAVIGATION_PATTERNS : List NavPat := [
  .lit "AASLD PublicationsHepatologyLiver TransplantationHepatology CommunicationsClinical Liver Disease",
  .lit "Visit our other sites",
  .lit "Log inorRegister",
  .lit "Subscribe to journal",
  .lit "Get new issue alerts",
  .lit "AASLD Member? Login here",
  .lit "Subscribe to eTOC",
  .lit "Enter your Email address:",
  .lit "Privacy Policy",
  .lit "Journal Logo",
  .lit "ArticlesArticlesAdvanced Search",
  .lit "Toggle navigation",
  .lit "BrowsingHistory",
  .lit "Back to Top",
  .lit "Never Miss an Issue",
  .lit "Get new journal Tables of Contents",
  .lit "Customer Service",
  .lit "Contact us at:",
  .lit "Submit a Service Request",
  .lit "Manage Cookie Preferences",
  .around "Copyright" "American Association for the Study of Liver Diseases",
  .lit "Content use for text and data mining and artificial intelligence training is not permitted",
  .lit "Your PrivacyTo give you the best possible experience",
  .lit "Accept All Cookies",
  .lit "Privacy Preference Center",
  .lit "Strictly Necessary Cookies",
  .lit "Functional Cookies",
  .lit "Performance Cookies",
  .lit "Advertising Cookies",
  .around "Flash Player" "required",
  .lit "Get Adobe Flash Player",
  .lit "Email to Colleague",
  .lit "Colleague\x27s E-mail is Invalid",
  .lit "Your message has been successfully sent",
  .lit "Some error has occurred while processing your request",
  .lit "Export toEnd Note",
  .lit "ProciteReference Manager",
  .lit "Save my selection",
  .lit "DownloadPDF",
  .lit "CiteCopy",
  .lit "ShareEmailFacebookXLinkedIn",
  .lit "FavoritesPermissions",
  .lit "Related Articles",
  .lit "Readers Of this Article Also Read",
  .lit "Most Popular"]

/-- `re.sub(lit, '', text, flags=IGNORECASE)` for a literal pattern:
remove every non-overlapping occurrence, scanning left to right and
resuming after each removed occurrence.  Fueled so that the definition is
structurally recursive; with fuel `l.length` it performs the full scan
(each step consumes at least one input character). -/
def removeAllCIF (pat : List Char) : Nat → List Char → List Char
  | 0, l => l
  | _ + 1, [] => []
  | fuel + 1, c :: cs =>
    if pat.isEmpty then c :: removeAllCIF pat fuel cs
    else if ciStartsWith pat (c :: cs) then
      removeAllCIF pat fuel ((c :: cs).drop pat.length)
    else c :: removeAllCIF pat fuel cs

/-- `re.sub(pre + '.*' + post, '', text, flags=IGNORECASE)` (no DOTALL, so
`.` does not match a newline and the greedy `.*` runs to the last
occurrence of `post` on the same line). -/
def subAroundCIF (pre post : List Char) : Nat → List Char → List Char
  | 0, l => l
  | _ + 1, [] => []
  | fuel + 1, c :: cs =>
    if pre.isEmpty then c :: subAroundCIF pre post fuel cs
    else if ciStartsWith pre (c :: cs) then
      let after := (c :: cs).drop pre.length
      let line := after.takeWhile (fun x => x ≠ '\n')
      match ((List.range (line.length + 1)).filter
          (fun i => ciStartsWith post (line.drop i))).getLast? with
      | some k => subAroundCIF pre post fuel (after.drop (k + post.length))
      | none => c :: subAroundCIF pre post fuel cs
    else c :: subAroundCIF pre post fuel cs

/-- Apply one navigation pattern to the text. -/
def applyNavPat (l : List Char) (p : NavPat) : List Char :=
  match p with
  | .lit s => removeAllCIF s.data l.length l
  | .around pre post => subAroundCIF pre.data post.data l.length l

/-- The boilerplate-stripping stage of `clean_text`: apply every
`NAVIGATION_PATTERNS` substitution in order. -/
def stripNavL (l : List Char) : List Char :=
  NAVIGATION_PATTERNS.foldl applyNavPat l

/-- `stripNavL` on strings. -/
def stripNav (s : String) : String := ⟨stripNavL s.data⟩

/-- `re.sub(r'\s+', ' ', text)`: collapse every whitespace run to a single
space.  The boolean records whether we are inside a run already replaced. -/
def collapseAux : Bool → List Char → List Char
  | _, [] => []
  | inRun, c :: cs =>
    if pyWs c then
      if inRun then collapseAux true cs else ' ' :: collapseAux true cs
    else c :: collapseAux false cs

/-- Whitespace-collapsing stage of `clean_text`. -/
def collapseWsL (l : List Char) : List Char := collapseAux false l

/-- `re.sub(r'\n\s*\n+', '\n\n', text)`: a match starts at a newline whose
following whitespace run contains another newline and extends to the last
newline of that run.  State: `none` = outside a candidate run;
`some (found, buf)` = after a newline, `found` records whether a second
newline was seen, `buf` the (reversed) whitespace after the last newline. -/
def sp3go : Option (Bool × List Char) → List Char → List Char
  | none, [] => []
  | some (found, buf), [] =>
    if found then '\n' :: '\n' :: buf.reverse else '\n' :: buf.reverse
  | none, c :: cs =>
    if c = '\n' then sp3go (some (false, [])) cs else c :: sp3go none cs
  | some (found, buf), c :: cs =>
    if c = '\n' then sp3go (some (true, [])) cs
    else if pyWs c then sp3go (some (found, c :: buf)) cs
    else (if found then '\n' :: '\n' :: buf.reverse else '\n' :: buf.reverse) ++
      c :: sp3go none cs

/-- The class `[ \t]`. -/
def spaceTab (c : Char) : Bool := c = ' ' || c = '\t'

/-- `re.sub(r'[ \t]+', ' ', text)`. -/
def sp4Aux : Bool → List Char → List Char
  | _, [] => []
  | inRun, c :: cs =>
    if spaceTab c then
      if inRun then sp4Aux true cs else ' ' :: sp4Aux true cs
    else c :: sp4Aux false cs

/-- Space/tab-run collapsing stage. -/
def sp4L (l : List Char) : List Char := sp4Aux false l

/-- `re.sub(r'(X)(Y)', r'\1 \2', text)` for one-character classes `X`, `Y`:
insert a space between an `X` character immediately followed by a `Y`
character, scanning left to right with non-overlapping two-character
matches (scanning resumes after the matched pair). -/
def insertSpaceSub (p q : Char → Bool) : List Char → List Char
  | [] => []
  | [c] => [c]
  | a :: b :: rest =>
    if p a && q b then a :: ' ' :: b :: insertSpaceSub p q rest
    else a :: insertSpaceSub p q (b :: rest)

/-- `re.sub(r'([a-z])([A-Z])', r'\1 \2', text)`. -/
def camelSubL : List Char → List Char := insertSpaceSub lowAZ upAZ

/-- `re.sub(r'([\.!?])([A-Z])', r'\1 \2', text)`. -/
def sentenceSubL : List Char → List Char := insertSpaceSub sentC upAZ

/-- `re.sub(d + '{3,}', ddd, text)`: cap every run of `d` at three.
`n` counts the pending characters of the current run. -/
def runSubGo (d : Char) : Nat → List Char → List Char
  | n, [] => List.replicate (min n 3) d
  | n, c :: cs =>
    if c = d then runSubGo d (n + 1) cs
    else List.replicate (min n 3) d ++ c :: runSubGo d 0 cs

/-- Run-capping substitution (`\.{3,}` → `...`, `-{3,}` → `---`). -/
def runSub3 (d : Char) (l : List Char) : List Char := runSubGo d 0 l

/-- `re.sub(r'\.{3,}', '...', text)`. -/
def dotsSubL : List Char → List Char := runSub3 '.'

/-- `re.sub(r'-{3,}', '---', text)`. -/
def dashSubL : List Char → List Char := runSub3 '-'

/-- `re.sub(pat + '.*$', '', text, flags=MULTILINE|DOTALL)` for a literal
`pat`: with DOTALL the greedy `.*` runs to the end of the string, so the
substitution truncates everything from the first occurrence of `pat`. -/
def cutAtFirst (pat : List Char) : List Char → List Char
  | [] => []
  | c :: cs => if startsWithL pat (c :: cs) then [] else c :: cutAtFirst pat cs

/-- The `re.sub(r'Copyright.*$', '', text, flags=MULTILINE|DOTALL)` stage. -/
def cutCopyrightL : List Char → List Char := cutAtFirst "Copyright".data

/-- `cutCopyrightL` on strings. -/
def cutCopyright (s : String) : String := ⟨cutCopyrightL s.data⟩

/-- Embedding of `AASLDDataCleaner.clean_text`, stage by stage in source
order: boilerplate stripping, whitespace normalization, camel-case and
sentence spacing, punctuation-run capping, copyright truncation, strip.
(`if not text: return ""` agrees with running the stages on `""`.) -/
def cleanTextL (l : List Char) : List Char :=
  pyStripL (cutCopyrightL (dashSubL (dotsSubL (sentenceSubL (camelSubL
    (sp4L (sp3go none (collapseWsL (stripNavL l)))))))))

/-- `clean_text` on strings. -/
def clean_text (s : String) : String := ⟨cleanTextL s.data⟩

/-! ## `clean_data.AASLDDataCleaner.extract_recommendations`

The block pattern is
`Recommendation\s+(\d+)[:\s]+(.*?)(?=Recommendation\s+\d+|Case\s+\d+|$|Summary)`
with `IGNORECASE | DOTALL`, applied with `re.finditer`.  The greedy parts
never backtrack (their character classes are disjoint from what follows),
so a match at a position is: the literal (case-insensitively), a
whitespace run, a digit run, a `[:\s]` run — each non-empty — and then the
lazy body growing until the first position where the lookahead holds. -/

/-- A recommendation record, mirroring the dict built by
`extract_recommendations`. -/
structure Rec where
  number : String
  text : String
  grade : Option String
  certainty : Option String
  raw_text : String
deriving DecidableEq, Repr

/-- `word\s+\d+` at the head of `l`, case-insensitively (used for the
`Recommendation\s+\d+` and `Case\s+\d+` lookahead branches). -/
def wordWsNum (word : List Char) (l : List Char) : Bool :=
  ciStartsWith word l &&
    (let r := l.drop word.length
     !(r.takeWhile pyWs).isEmpty &&
       (match r.dropWhile pyWs with
        | [] => false
        | c :: _ => pyDigit c))

/-- The regex `$` without MULTILINE: end of string, or just before a
final newline. -/
def dollarAt (l : List Char) : Bool := l.isEmpty || l = ['\n']

/-- The lookahead `(?=Recommendation\s+\d+|Case\s+\d+|$|Summary)`. -/
def recLookahead (l : List Char) : Bool :=
  wordWsNum "Recommendation".data l || wordWsNum "Case".data l ||
    dollarAt l || ciStartsWith "Summary".data l

/-- The lazy `(.*?)` before the lookahead: the shortest prefix (possibly
crossing newlines, DOTALL) whose remainder satisfies the lookahead; the
lookahead holds at the end of the string (`$`), so this is total. -/
def lazyBody : List Char → List Char
  | [] => []
  | c :: cs => if recLookahead (c :: cs) then [] else c :: lazyBody cs

/-- Try the recommendation-block pattern at the head of `l`.  Returns
`(consumed, digit group, body group)` on success. -/
def tryRecMatchAt (l : List Char) : Option (Nat × List Char × List Char) :=
  if ciStartsWith "Recommendation".data l then
    let r1 := l.drop 14
    let w := r1.takeWhile pyWs
    if w.isEmpty then none else
    let r2 := r1.drop w.length
    let n := r2.takeWhile pyDigit
    if n.isEmpty then none else
    let r3 := r2.drop n.length
    let sep := r3.takeWhile (fun c => c = ':' || pyWs c)
    if sep.isEmpty then none else
    let r4 := r3.drop sep.length
    let body := lazyBody r4
    some (14 + w.length + n.length + sep.length + body.length, n, body)
  else none

/-- `re.finditer` scan for the recommendation pattern: try each position
left to right, resuming after the end of each match.  Fueled (one unit per
step; every step consumes at least one character, so fuel `length + 1`
performs the complete scan).  Yields `(raw match, digit group, body)`. -/
def recScanF : Nat → List Char → List (List Char × List Char × List Char)
  | 0, _ => []
  | _ + 1, [] => []
  | fuel + 1, c :: cs =>
    match tryRecMatchAt (c :: cs) with
    | some (len, n, body) =>
      ((c :: cs).take len, n, body) :: recScanF fuel ((c :: cs).drop len)
    | none => recScanF fuel cs

/-- `[^)]`. -/
def nonRParen (c : Char) : Bool := c ≠ ')'

/-- `w\s+recommendation[^)]+\)` right after a `(` (case-sensitive, as in
the grade search of the source). -/
def gradeAtParen (w : List Char) (rest : List Char) : Bool :=
  startsWithL w rest &&
    (let r1 := rest.drop w.length
     let ws := r1.takeWhile pyWs
     !ws.isEmpty &&
       (let r2 := r1.drop ws.length
        startsWithL "recommendation".data r2 &&
          (let r3 := r2.drop 14
           let mid := r3.takeWhile nonRParen
           !mid.isEmpty &&
             (match r3.drop mid.length with
              | ')' :: _ => true
              | _ => false))))

/-- `re.search(r'\((Strong|Conditional|Weak)\s+recommendation[^)]+\)', t)`:
first position wins, alternatives in pattern order; returns group 1. -/
def gradeSearch : List Char → Option String
  | [] => none
  | c :: cs =>
    if c = '(' then
      if gradeAtParen "Strong".data cs then some "Strong"
      else if gradeAtParen "Conditional".data cs then some "Conditional"
      else if gradeAtParen "Weak".data cs then some "Weak"
      else gradeSearch cs
    else gradeSearch cs

/-- `w\s+certainty\)` right after a `(`, case-insensitively; returns the
number of characters consumed after the `(` on success. -/
def certAtParen (w : List Char) (cs : List Char) : Option Nat :=
  if ciStartsWith w cs then
    let r1 := cs.drop w.length
    let ws := r1.takeWhile pyWs
    if ws.isEmpty then none else
    let r2 := r1.drop ws.length
    if ciStartsWith "certainty".data r2 then
      match r2.drop 9 with
      | ')' :: _ => some (w.length + ws.length + 9 + 1)
      | _ => none
    else none
  else none

/-- `re.search(r'\((?:high|moderate|low|very low)\s+certainty\)', t, I)`:
returns group 0 (the matched text, original case). -/
def certaintySearch : List Char → Option String
  | [] => none
  | c :: cs =>
    if c = '(' then
      match certAtParen "high".data cs with
      | some k => some ⟨'(' :: cs.take k⟩
      | none =>
        match certAtParen "moderate".data cs with
        | some k => some ⟨'(' :: cs.take k⟩
        | none =>
          match certAtParen "low".data cs with
          | some k => some ⟨'(' :: cs.take k⟩
          | none =>
            match certAtParen "very low".data cs with
            | some k => some ⟨'(' :: cs.take k⟩
            | none => certaintySearch cs
    else certaintySearch cs

/-- Embedding of `AASLDDataCleaner.extract_recommendations`: for each
block match, strip the body, search grade (case-sensitive) and certainty
(case-insensitive) in the stripped body, clean the body with `clean_text`,
and keep the record only if the cleaned text is non-empty. -/
def extract_recommendations (s : String) : List Rec :=
  (recScanF (s.data.length + 1) s.data).filterMap (fun m =>
    let recText := pyStripL m.2.2
    let cleaned := cleanTextL recText
    if cleaned.isEmpty then none
    else some { number := ⟨m.2.1⟩, text := ⟨cleaned⟩,
                grade := gradeSearch recText,
                certainty := certaintySearch recText,
                raw_text := ⟨m.1⟩ })

/-! ## `clean_data.AASLDDataCleaner.extract_clinical_values`

Dosage pattern:
`(\d+(?:\.\d+)?)\s*(mg|mcg|IU/mL|U/L|IU|mL|kg)\s*(?:orally|subcutaneously|daily|weekly|monthly)?`;
threshold pattern:
`(≥|≤|<|>|>=|<=)\s*(\d+(?:,\d+)?)\s*(IU/mL|U/L|IU|mg/dL|years?|months?|weeks?|days?)`;
both `IGNORECASE`, each applied with its own `re.finditer` pass, dosage
results appended before threshold results. -/

/-- A clinical value, mirroring the dicts built by
`extract_clinical_values` (tagged by their `'type'` field). -/
inductive CVal
  | dosage (value number unit : String)
  | threshold (value operator number unit : String)
deriving DecidableEq, Repr

/-- The `'type'` field of the value dict. -/
def CVal.type : CVal → String
  | .dosage .. => "dosage"
  | .threshold .. => "threshold"

/-- The dosage unit alternation, in pattern order. -/
def DOSAGE_UNITS : List String := ["mg", "mcg", "IU/mL", "U/L", "IU", "mL", "kg"]

/-- The optional route/frequency alternation, in pattern order. -/
def ROUTE_WORDS : List String := ["orally", "subcutaneously", "daily", "weekly", "monthly"]

/-- The threshold unit alternation, in pattern order; `years?` etc. are
expanded as `years|year` (the greedy optional `s?` tries the plural
first). -/
def THRESH_UNITS : List String :=
  ["IU/mL", "U/L", "IU", "mg/dL", "years", "year", "months", "month",
   "weeks", "week", "days", "day"]

/-- First alternative of `alts` matching case-insensitively at the head of
`l`; returns the matched slice of `l` (original case, as regex groups do). -/
def firstCIAlt (alts : List String) (l : List Char) : Option (List Char) :=
  match alts with
  | [] => none
  | u :: rest =>
    if ciStartsWith u.data l then some (l.take u.data.length)
    else firstCIAlt rest l

/-- After the number of a dosage match: `\s*(unit)\s*(?:route)?`.
`num` is the number group; returns `(consumed from the number on, number
group, unit group)`. -/
def dosageTail (num : List Char) (r : List Char) : Option (Nat × List Char × List Char) :=
  let ws := r.takeWhile pyWs
  let r2 := r.drop ws.length
  match firstCIAlt DOSAGE_UNITS r2 with
  | none => none
  | some u =>
    let r3 := r2.drop u.length
    let ws2 := r3.takeWhile pyWs
    let r4 := r3.drop ws2.length
    let rlen := match firstCIAlt ROUTE_WORDS r4 with
      | some w => w.length
      | none => 0
    some (num.length + ws.length + u.length + ws2.length + rlen, num, u)

/-- Try the dosage pattern at the head of `l`: a digit run, an optional
`\.\d+` (tried with the decimal part first, then without, as the regex
backtracks), then `dosageTail`. -/
def tryDosageAt (l : List Char) : Option (Nat × List Char × List Char) :=
  let ds := l.takeWhile pyDigit
  if ds.isEmpty then none else
  let r1 := l.drop ds.length
  let dec : List Char :=
    match r1 with
    | '.' :: rest =>
      let fs := rest.takeWhile pyDigit
      if fs.isEmpty then [] else '.' :: fs
    | _ => []
  match dosageTail (ds ++ dec) (r1.drop dec.length) with
  | some res => some res
  | none => if dec.isEmpty then none else dosageTail ds r1

/-- The dosage `re.finditer` pass (fueled scan, one unit per step). -/
def dosageScanF : Nat → List Char → List CVal
  | 0, _ => []
  | _ + 1, [] => []
  | fuel + 1, c :: cs =>
    match tryDosageAt (c :: cs) with
    | some (len, num, u) =>
      CVal.dosage ⟨(c :: cs).take len⟩ ⟨num⟩ ⟨u⟩ ::
        dosageScanF fuel ((c :: cs).drop len)
    | none => dosageScanF fuel cs

/-- After a threshold operator: `\s*(\d+(?:,\d+)?)\s*(unit)` (the optional
`,\d+` is tried with the group first, then without).  Returns
`(consumed after the operator, number group, unit group)`. -/
def thresholdTail (r : List Char) : Option (Nat × List Char × List Char) :=
  let ws := r.takeWhile pyWs
  let r1 := r.drop ws.length
  let ds := r1.takeWhile pyDigit
  if ds.isEmpty then none else
  let r2 := r1.drop ds.length
  let com : List Char :=
    match r2 with
    | ',' :: rest =>
      let fs := rest.takeWhile pyDigit
      if fs.isEmpty then [] else ',' :: fs
    | _ => []
  let tailAfterNum : List Char → List Char → Option (Nat × List Char × List Char) :=
    fun num r3 =>
      let ws2 := r3.takeWhile pyWs
      let r4 := r3.drop ws2.length
      match firstCIAlt THRESH_UNITS r4 with
      | none => none
      | some u => some (ws.length + num.length + ws2.length + u.length, num, u)
  match tailAfterNum (ds ++ com) (r2.drop com.length) with
  | some res => some res
  | none => if com.isEmpty then none else tailAfterNum ds r2

/-- Try the threshold operators `≥|≤|<|>|>=|<=` in pattern order at the
head of `l` (the regex backtracks into the alternation when the rest of
the pattern fails, which is how `>=` can win over `>`). -/
def tryThresholdOps : List String → List Char → Option (Nat × List Char × List Char × List Char)
  | [], _ => none
  | op :: rest, l =>
    if ciStartsWith op.data l then
      match thresholdTail (l.drop op.data.length) with
      | some (len, num, u) =>
        some (op.data.length + len, l.take op.data.length, num, u)
      | none => tryThresholdOps rest l
    else tryThresholdOps rest l

/-- The threshold operator alternation, in pattern order. -/
def THRESH_OPS : List String := ["≥", "≤", "<", ">", ">=", "<="]

/-- The threshold `re.finditer` pass (fueled scan). -/
def thresholdScanF : Nat → List Char → List CVal
  | 0, _ => []
  | _ + 1, [] => []
  | fuel + 1, c :: cs =>
    match tryThresholdOps THRESH_OPS (c :: cs) with
    | some (len, op, num, u) =>
      CVal.threshold ⟨(c :: cs).take len⟩ ⟨op⟩ ⟨num⟩ ⟨u⟩ ::
        thresholdScanF fuel ((c :: cs).drop len)
    | none => thresholdScanF fuel cs

/-- Embedding of `AASLDDataCleaner.extract_clinical_values`: the dosage
pass over the whole text, then the threshold pass, results concatenated
in that order. -/
def extract_clinical_values (s : String) : List CVal :=
  dosageScanF (s.data.length + 1) s.data ++
    thresholdScanF (s.data.length + 1) s.data

/-! ## `Data_Extraction.parse_pdf_into_paragraphs`

The splitter `re.split(r'(?<=[.!?])\s+(?=[A-Z])', text)`: a delimiter is a
whitespace run whose preceding character is sentence punctuation and whose
following character is an upper-case letter (the lookarounds force matches
to start at the first character of a run). -/

/-- Join with a single separator character (Python `sep.join`). -/
def joinSepC (sep : Char) : List (List Char) → List Char
  | [] => []
  | [s] => s
  | s :: rest => s ++ sep :: joinSepC sep rest

/-- Join with a separator list (Python `sep.join`). -/
def joinSepL (sep : List Char) : List (List Char) → List Char
  | [] => []
  | [s] => s
  | s :: rest => s ++ sep ++ joinSepL sep rest

/-- Is the last character of the accumulated piece sentence punctuation
(the lookbehind `(?<=[.!?])`)? -/
def lastSentP (cur : List Char) : Bool :=
  match cur.getLast? with
  | some c => sentC c
  | none => false

/-- State machine for the sentence splitter.  `cur` is the piece being
accumulated; the `Option` state buffers a whitespace run that started
right after sentence punctuation and may turn out to be a delimiter. -/
def splitSentGo : List Char → Option (List Char) → List Char → List (List Char)
  | cur, none, [] => [cur]
  | cur, some buf, [] => [cur ++ buf]
  | cur, none, c :: cs =>
    if pyWs c && lastSentP cur then splitSentGo cur (some [c]) cs
    else splitSentGo (cur ++ [c]) none cs
  | cur, some buf, c :: cs =>
    if pyWs c then splitSentGo cur (some (buf ++ [c])) cs
    else if upAZ c then cur :: splitSentGo [c] none cs
    else splitSentGo (cur ++ buf ++ [c]) none cs

/-- `re.split(r'(?<=[.!?])\s+(?=[A-Z])', text)`. -/
def splitSentences (l : List Char) : List (List Char) :=
  splitSentGo [] none l

/-- The sentence-grouping loop of `parse_pdf_into_paragraphs`: strip each
sentence, keep it if longer than 20 characters, flush the current group as
one paragraph as soon as it reaches 3 sentences, and emit a non-empty
remainder at the end. -/
def pdfGroupGo : List (List Char) → List (List Char) → List (List Char)
  | currentPara, [] =>
    if currentPara.isEmpty then [] else [joinSepC ' ' currentPara]
  | currentPara, s :: rest =>
    let s' := pyStripL s
    if 20 < s'.length then
      let cur' := currentPara ++ [s']
      if 3 ≤ cur'.length then joinSepC ' ' cur' :: pdfGroupGo [] rest
      else pdfGroupGo cur' rest
    else pdfGroupGo currentPara rest

/-- Embedding of `Data_Extraction.parse_pdf_into_paragraphs`. -/
def parse_pdf_into_paragraphs (full_text : String) : List String :=
  let text := collapseWsL full_text.data
  let sentences := splitSentences text
  (pdfGroupGo [] sentences).map (fun l => (⟨l⟩ : String))

/-! ## `Data_Extraction.extract_text_from_pdf` and `process_pdf`

The PDF collaborator is modelled at its interface: opening/parsing the
file either raises (`Except.error`) or yields the per-page results, where
each page's `extract_text()` either raises (skipped by the source) or
returns a string (kept only if non-empty: `if text:`). -/

/-- Result of `page.extract_text()` for one page. -/
inductive PageResult
  | err
  | text (s : String)
deriving DecidableEq, Repr

/-- The content record returned by `extract_text_from_pdf`; optional
fields model dict keys that are present only on some paths. -/
structure PdfExtract where
  full_text : String
  page_count : Nat
  word_count : Option Nat
  char_count : Option Nat
  paragraphs : Option (List String)
  paragraph_count : Option Nat
  error : Option String
deriving DecidableEq, Repr

/-- Python `str.split()` (split on whitespace runs, no empty pieces),
used for `word_count`. -/
def pySplitWsGo : List Char → List Char → List (List Char)
  | cur, [] => if cur.isEmpty then [] else [cur]
  | cur, c :: cs =>
    if pyWs c then
      if cur.isEmpty then pySplitWsGo [] cs else cur :: pySplitWsGo [] cs
    else pySplitWsGo (cur ++ [c]) cs

/-- Python `str.split()`. -/
def pySplitWs (l : List Char) : List (List Char) := pySplitWsGo [] l

/-- The per-page step of `extract_text_from_pdf`: a page that raised is
skipped, a page text is kept only if non-empty (`if text:`). -/
def pageText : PageResult → Option (List Char)
  | .err => none
  | .text s => if s.data.isEmpty then none else some s.data

/-- Embedding of `Data_Extraction.extract_text_from_pdf`. -/
def extract_text_from_pdf (pdfSupport : Bool)
    (opened : Except String (List PageResult)) : PdfExtract :=
  if !pdfSupport then
    { full_text := "", page_count := 0, word_count := none, char_count := none,
      paragraphs := none, paragraph_count := none,
      error := some "PyPDF2 not installed" }
  else
    match opened with
    | .error e =>
      { full_text := "", page_count := 0, word_count := none, char_count := none,
        paragraphs := none, paragraph_count := none, error := some e }
    | .ok pages =>
      let text_pages := pages.filterMap pageText
      let full_text := joinSepL ['\n', '\n'] text_pages
      let full_text_clean := collapseWsL full_text
      let paragraphs := parse_pdf_into_paragraphs ⟨full_text_clean⟩
      { full_text := ⟨full_text_clean⟩, page_count := pages.length,
        word_count := some (pySplitWs full_text_clean).length,
        char_count := some full_text_clean.length,
        paragraphs := some paragraphs,
        paragraph_count := some paragraphs.length,
        error := none }

/-- The dict returned by a successful `process_pdf`. -/
structure PdfData where
  title : String
  full_text : String
  full_text_length : Nat
  word_count : Nat
  page_count : Nat
  paragraphs : List String
  paragraph_count : Nat
deriving DecidableEq, Repr

/-- Case-sensitive removal of every occurrence of a literal (=
`str.replace(pat, '')`), fueled like `removeAllCIF`. -/
def removeAllF (pat : List Char) : Nat → List Char → List Char
  | 0, l => l
  | _ + 1, [] => []
  | fuel + 1, c :: cs =>
    if pat.isEmpty then c :: removeAllF pat fuel cs
    else if startsWithL pat (c :: cs) then
      removeAllF pat fuel ((c :: cs).drop pat.length)
    else c :: removeAllF pat fuel cs

/-- `str.replace(a, b)` for single characters. -/
def mapReplace (a b : Char) (l : List Char) : List Char :=
  l.map (fun c => if c = a then b else c)

/-- `url.split("/")[-1]`: everything after the last `/`. -/
def lastSlashSeg (l : List Char) : List Char :=
  (l.reverse.takeWhile (fun c => c ≠ '/')).reverse

/-- Embedding of `Data_Extraction.process_pdf` after the download step
(`downloaded = none` models `download_pdf` returning `None`).  The
`word_count`/`char_count`/`page_count` keys are read by direct indexing in
the source; they are present whenever `full_text` is non-empty (the only
path reaching them), so `getD` defaults are never taken there. -/
def process_pdf (url : String) (pdfSupport : Bool)
    (downloaded : Option (Except String (List PageResult))) : Option PdfData :=
  match downloaded with
  | none => none
  | some opened =>
    let e := extract_text_from_pdf pdfSupport opened
    if e.full_text.data.isEmpty then none
    else
      let title := mapReplace '-' ' ' (mapReplace '_' ' '
        (removeAllF ".pdf".data (lastSlashSeg url.data).length (lastSlashSeg url.data)))
      some { title := ⟨title⟩, full_text := e.full_text,
             full_text_length := e.char_count.getD 0,
             word_count := e.word_count.getD 0,
             page_count := e.page_count,
             paragraphs := e.paragraphs.getD [],
             paragraph_count := e.paragraph_count.getD 0 }

/-! ## `Data_Extraction.extract_all_text_with_structure` (sections) and
`extract_all_tables`

The DOM walk is modelled over the document-order stream of block elements
with their `get_text(strip=True)` text; a table is modelled by its rows of
cell texts together with the presence of `thead`/`tbody` elements.  Title
and link resolution are not modelled (no claim concerns them). -/

/-- The tag of a walked element. -/
inductive HTag
  | h1 | h2 | h3 | h4 | h5 | h6 | p | divT | sectionT | li | other
deriving DecidableEq, Repr

/-- One element of the document in document order. -/
structure Node where
  tag : HTag
  text : String
  inScriptStyle : Bool
deriving DecidableEq, Repr

/-- `element.name in ['h1','h2','h3']`. -/
def HTag.isHeading13 : HTag → Bool
  | .h1 => true | .h2 => true | .h3 => true | _ => false

/-- `int(element.name[1])` for `h1`–`h3`. -/
def HTag.headingLevel13 : HTag → Nat
  | .h1 => 1 | .h2 => 2 | .h3 => 3 | _ => 0

/-- Tags walked by `soup.find_all(['h1','h2','h3','h4','h5','h6','p','div','section'])`. -/
def HTag.inStructuralWalk : HTag → Bool
  | .li => false | .other => false | _ => true

/-- Tags collected by `soup.find_all(['p','li','div'])`. -/
def HTag.inParaWalk : HTag → Bool
  | .p => true | .li => true | .divT => true | _ => false

/-- A section produced by the structural walk. -/
structure Section where
  heading : String
  level : Nat
  content : List String
deriving DecidableEq, Repr

/-- The section-building loop of `extract_all_text_with_structure`:
headings of level 1–3 close the open section and start a new one; other
walked elements with usable text append to the open section; everything
before the first qualifying heading is skipped (`current_section` is
`None`). -/
def sectionsGo : Option Section → List Node → List Section
  | cur, [] =>
    match cur with
    | some s => [s]
    | none => []
  | cur, n :: ns =>
    if !n.tag.inStructuralWalk then sectionsGo cur ns
    else if n.inScriptStyle then sectionsGo cur ns
    else if n.text = "" || n.text.length < 5 then sectionsGo cur ns
    else if n.tag.isHeading13 then
      match cur with
      | some s =>
        s :: sectionsGo (some ⟨n.text, n.tag.headingLevel13, []⟩) ns
      | none => sectionsGo (some ⟨n.text, n.tag.headingLevel13, []⟩) ns
    else
      match cur with
      | some s => sectionsGo (some { s with content := s.content ++ [n.text] }) ns
      | none => sectionsGo none ns

/-- The sections of `extract_all_text_with_structure`. -/
def extractSections (ns : List Node) : List Section := sectionsGo none ns

/-- The flat paragraph list (`p`/`li`/`div` with text longer than 10). -/
def extractAllParagraphs (ns : List Node) : List String :=
  ns.filterMap (fun n =>
    if n.tag.inParaWalk && !(n.text = "") && 10 < n.text.length then some n.text
    else none)

/-- A `<table>` element: its `tr` rows as cell-text lists, with the
`thead`/`tbody` sub-elements when present (`table.find_all('tr')` sees
every row, which is what the body iteration uses when `tbody` is absent). -/
structure HtmlTable where
  theadRows : Option (List (List String))
  tbodyRows : Option (List (List String))
  allRows : List (List String)
deriving DecidableEq, Repr

/-- A table record produced by `extract_all_tables`. -/
structure Table where
  table_index : Nat
  headers : List String
  rows : List (List String)
  row_count : Nat
  column_count : Nat
deriving DecidableEq, Repr

/-- First non-empty header row of the `thead` (the loop breaks at it). -/
def firstNonEmptyRow : List (List String) → List String
  | [] => []
  | r :: rest => if r.isEmpty then firstNonEmptyRow rest else r

/-- The kept body rows: `if cells and cells != headers` (empty rows and
rows equal to the header row are discarded). -/
def tableRows (headers : List String) (body : List (List String)) :
    List (List String) :=
  body.filter (fun cells => !cells.isEmpty && cells ≠ headers)

/-- Build the table record from the resolved headers and the iterated
body rows; emit the record only when something was found, computing
`column_count` from the headers when present, else from the first row. -/
def mkTable (idx : Nat) (headers : List String) (body : List (List String)) :
    Option Table :=
  if !(tableRows headers body).isEmpty || !headers.isEmpty then
    some { table_index := idx + 1, headers := headers,
           rows := tableRows headers body,
           row_count := (tableRows headers body).length,
           column_count :=
             if !headers.isEmpty then headers.length
             else
               match tableRows headers body with
               | r :: _ => r.length
               | [] => 0 }
  else none

/-- Process one table (`table_idx` is the 0-based enumeration index):
headers from the first non-empty `thead` row; body rows from the `tbody`
when present, else every `tr` of the table. -/
def extractTable (idx : Nat) (t : HtmlTable) : Option Table :=
  let headers :=
    match t.theadRows with
    | none => []
    | some trs => firstNonEmptyRow trs
  let body :=
    match t.tbodyRows with
    | some trs => trs
    | none => t.allRows
  mkTable idx headers body

/-- The enumeration loop of `extract_all_tables`. -/
def tablesGo : Nat → List HtmlTable → List Table
  | _, [] => []
  | i, t :: rest =>
    match extractTable i t with
    | some tb => tb :: tablesGo (i + 1) rest
    | none => tablesGo (i + 1) rest

/-- Embedding of `Data_Extraction.extract_all_tables`. -/
def extract_all_tables (ts : List HtmlTable) : List Table := tablesGo 0 ts

/-- The record built by `extract_all_text_with_structure` (title and link
resolution omitted; no claim concerns them). -/
structure HtmlContent where
  full_text : String
  sections : List Section
  section_count : Nat
  tables : List Table
  table_count : Nat
  paragraph_count : Nat
  word_count : Nat
  char_count : Nat
deriving DecidableEq, Repr

/-- The parsed document handed to `extract_all_text_with_structure`. -/
structure HtmlDoc where
  nodes : List Node
  tables : List HtmlTable
deriving DecidableEq, Repr

/-- Embedding of `Data_Extraction.extract_all_text_with_structure`. -/
def extract_all_text_with_structure (d : HtmlDoc) : HtmlContent :=
  let sections := extractSections d.nodes
  let all_paragraphs := extractAllParagraphs d.nodes
  let tables := extract_all_tables d.tables
  let full_text := joinSepL ['\n', '\n'] (all_paragraphs.map String.data)
  { full_text := ⟨full_text⟩, sections := sections,
    section_count := sections.length, tables := tables,
    table_count := tables.length, paragraph_count := all_paragraphs.length,
    word_count := (pySplitWs full_text).length,
    char_count := full_text.length }

/-! ## `Data_Extraction.is_valid_content_link`

`urllib.parse.urlparse` is modelled for the two components the source
reads: strip an optional scheme (letters/digits/`+-.` before the first
`:`, starting with a letter), take the netloc after a leading `//` up to
the first of `/?#`, then drop the fragment and query to obtain the path. -/

/-- Characters allowed in a URL scheme. -/
def isSchemeChar (c : Char) : Bool :=
  lowAZ c || upAZ c || pyDigit c || c = '+' || c = '-' || c = '.'

/-- An ASCII letter. -/
def isAsciiAlpha (c : Char) : Bool := lowAZ c || upAZ c

/-- Model of `urllib.parse.urlparse(u)` restricted to `(netloc, path)`. -/
def pyUrlNetlocPath (u : List Char) : List Char × List Char :=
  let pre := u.takeWhile (fun c => c ≠ ':')
  let rest :=
    if pre.length < u.length && !pre.isEmpty &&
        (match pre with
         | c :: _ => isAsciiAlpha c
         | [] => false) && pre.all isSchemeChar
    then u.drop (pre.length + 1) else u
  let netPred : Char → Bool := fun c => c ≠ '/' && c ≠ '?' && c ≠ '#'
  let (netloc, rest2) :=
    if startsWithL "//".data rest then
      ((rest.drop 2).takeWhile netPred, (rest.drop 2).dropWhile netPred)
    else ([], rest)
  let noFrag := rest2.takeWhile (fun c => c ≠ '#')
  (netloc, noFrag.takeWhile (fun c => c ≠ '?'))

/-- `str.lower()` (ASCII). -/
def lowerL (l : List Char) : List Char := l.map lowerC

/-- The `REJECT_PATTERNS` list of `Data_Extraction.py`. -/
def REJECT_PATTERNS : List String :=
  ["/forums", "/home", "/about", "/contact", "/subscribe",
   "facebook.com", "twitter.com", "linkedin.com", "youtube.com"]

/-- `any(pattern in url.lower() for pattern in REJECT_PATTERNS)`. -/
def linkRejected (url : String) : Bool :=
  REJECT_PATTERNS.any (fun p => containsL p.data (lowerL url.data))

/-- `any(domain in parsed.netloc for domain in [...])`. -/
def linkJournalHost (url : String) : Bool :=
  ["journals.lww.com", "doi.org", "pubmed"].any
    (fun d => containsL d.data (pyUrlNetlocPath url.data).1)

/-- `url.endswith(".pdf") or "/sites/default/files/" in url` (note: tested
on the whole URL string, not on the parsed path). -/
def linkPdfOrFiles (url : String) : Bool :=
  endsWithL ".pdf".data url.data ||
    containsL "/sites/default/files/".data url.data

/-- `"aasld.org" in parsed.netloc and "/practice-guidelines/" in url`. -/
def linkOwnSite (url : String) : Bool :=
  containsL "aasld.org".data (pyUrlNetlocPath url.data).1 &&
    containsL "/practice-guidelines/".data url.data

/-- `url_path != base_path and url_path.startswith(base_path)` on
trailing-slash-stripped paths. -/
def linkDescendantPath (url base_url : String) : Bool :=
  let base_path := dropTrailing '/' (pyUrlNetlocPath base_url.data).2
  let url_path := dropTrailing '/' (pyUrlNetlocPath url.data).2
  !(url_path == base_path) && startsWithL base_path url_path

/-- Embedding of `Data_Extraction.is_valid_content_link`, mirroring the
source's early returns. -/
def is_valid_content_link (url base_url : String) : Bool :=
  if url == "" || url == base_url then false
  else if linkRejected url then false
  else if linkJournalHost url then true
  else if linkPdfOrFiles url then true
  else if linkOwnSite url then linkDescendantPath url base_url
  else false

/-- The condition claimed by the specification, read literally: branch (b)
tests the parsed *path* for the PDF extension / file-storage segment, and
branch (c) requires the link path to descend from the base path by *whole
path segments* (and does not mention `/practice-guidelines/`). -/
def spec_valid_link_original (url base_url : String) : Bool :=
  !(url == "") && !(url == base_url) && !linkRejected url &&
    (linkJournalHost url ||
      (endsWithL ".pdf".data (pyUrlNetlocPath url.data).2 ||
        containsL "/sites/default/files/".data (pyUrlNetlocPath url.data).2) ||
      (containsL "aasld.org".data (pyUrlNetlocPath url.data).1 &&
        (let base_path := dropTrailing '/' (pyUrlNetlocPath base_url.data).2
         let url_path := dropTrailing '/' (pyUrlNetlocPath url.data).2
         startsWithL (base_path ++ ['/']) url_path)))

/-- The specification's condition amended to what the source implements:
(b) tests the whole URL string, and (c) additionally requires
`/practice-guidelines/` in the URL and uses a plain string-prefix test on
the trailing-slash-stripped paths. -/
def spec_valid_link_amended (url base_url : String) : Bool :=
  !(url == "") && !(url == base_url) && !linkRejected url &&
    (linkJournalHost url || linkPdfOrFiles url ||
      (linkOwnSite url && linkDescendantPath url base_url))

/-! ## Claim C2: recommendation extraction on the specification's example -/

/-- The input string of claim C2. -/
def recClaimInput : String :=
  "Recommendation 1: Use drug X (Strong recommendation, moderate certainty). Recommendation 2: ..."

set_option maxRecDepth 80000 in
/-- C2 counterexample: on the claimed input, two recommendations are
produced and the first one's `grade` is `"Strong"`, but its `certainty`
field is `None` — not a string containing "moderate certainty".  The
certainty regex `\((?:high|moderate|low|very low)\s+certainty\)` needs the
certainty phrase to sit in its own parentheses, and here the only
parenthesized group starts with "Strong recommendation". -/
theorem extract_recommendations_certainty_counterexample :
    (extract_recommendations recClaimInput).length = 2 ∧
      ((extract_recommendations recClaimInput).get? 0).map Rec.certainty =
        some none := by
  constructor
  · decide
  · decide

set_option maxRecDepth 80000 in
/-- C2 amended: the input yields exactly 2 recommendations; the first has
`number = "1"`, `grade = "Strong"` and cleaned text
"Use drug X (Strong recommendation, moderate certainty)."; but its
`certainty` is `None` (as is the second's). -/
theorem extract_recommendations_c2_amended :
    (extract_recommendations recClaimInput).map
        (fun r => (r.number, r.grade, r.certainty)) =
      [("1", some "Strong", none), ("2", none, none)] ∧
      ((extract_recommendations recClaimInput).get? 0).map Rec.text =
        some "Use drug X (Strong recommendation, moderate certainty)." := by
  constructor
  · decide
  · decide

/-! ## Claim C3: clinical value extraction on the specification's examples -/

set_option maxRecDepth 80000 in
/-- C3 counterexample: on `"ALT ≥ 1,000 U/L"` the extractor yields *two*
values, and the first is a dosage, not the claimed single threshold: the
dosage pattern `(\d+(?:\.\d+)?)\s*(unit)` cannot read the thousands
separator, so it matches the digits after the comma as `"000 U/L"`. -/
theorem extract_clinical_values_threshold_counterexample :
    (extract_clinical_values "ALT ≥ 1,000 U/L").length = 2 ∧
      ((extract_clinical_values "ALT ≥ 1,000 U/L").get? 0).map CVal.type =
        some "dosage" := by
  constructor
  · decide
  · decide

set_option maxRecDepth 80000 in
/-- C3 amended: `"administer 400 mg orally"` yields exactly one value, the
dosage `{number "400", unit "mg"}`; `"ALT ≥ 1,000 U/L"` yields two values:
a spurious dosage `{number "000", unit "U/L"}` followed by the threshold
`{operator "≥", number "1,000", unit "U/L"}`. -/
theorem extract_clinical_values_c3_amended :
    extract_clinical_values "administer 400 mg orally" =
        [CVal.dosage "400 mg orally" "400" "mg"] ∧
      extract_clinical_values "ALT ≥ 1,000 U/L" =
        [CVal.dosage "000 U/L" "000" "U/L",
         CVal.threshold "≥ 1,000 U/L" "≥" "1,000" "U/L"] := by
  constructor
  · decide
  · decide

/-! ## Claim C6: PDF paragraph grouping -/

/-- The grouping loop restricted to the qualifying (stripped, longer than
20 characters) sentences: `pdfGroupGo` skips the others, so it factors
through this function. -/
def pdfGroupQ : List (List Char) → List (List Char) → List (List Char)
  | cur, [] => if cur.isEmpty then [] else [joinSepC ' ' cur]
  | cur, s :: rest =>
    let cur' := cur ++ [s]
    if 3 ≤ cur'.length then joinSepC ' ' cur' :: pdfGroupQ [] rest
    else pdfGroupQ cur' rest

lemma pdfGroupGo_eq_q :
    ∀ (ss : List (List Char)) (cur : List (List Char)),
      pdfGroupGo cur ss =
        pdfGroupQ cur ((ss.map pyStripL).filter
          (fun s => decide (20 < s.length))) := by
  intro ss
  induction ss with
  | nil => intro cur; rfl
  | cons s rest ih =>
    intro cur
    by_cases h20 : 20 < (pyStripL s).length
    · simp only [pdfGroupGo, List.map_cons, List.filter_cons, h20, if_pos,
        decide_eq_true_eq, pdfGroupQ]
      by_cases h3 : 3 ≤ (cur ++ [pyStripL s]).length
      · simp [h3, ih]
      · simp [h3, ih]
    · simp [pdfGroupGo, List.map_cons, List.filter_cons, h20, ih]

/-- A PDF text that splits into exactly 7 qualifying sentences. -/
def c6Input : String :=
  "Aaaa bbbb cccc dddd sss. Bbbb cccc dddd eeee aaa. Cccc dddd eeee ffff bbb. Dddd eeee ffff gggg ccc. Eeee ffff gggg hhhh ddd. Ffff gggg hhhh iiii eee. Gggg hhhh iiii jjjj fff."

set_option maxRecDepth 80000 in
/-- C6 counterexample: an input with exactly 7 qualifying sentences yields
*3* paragraphs (of sizes [3,3,1]), not the 2 paragraphs stated by the
claim: the loop flushes a paragraph at every third sentence and emits the
remainder, so 7 sentences give 3 groups. -/
theorem pdf_paragraphs_seven_sentences_counterexample :
    (((splitSentences (collapseWsL c6Input.data)).map pyStripL).filter
        (fun s => decide (20 < s.length))).length = 7 ∧
      (parse_pdf_into_paragraphs c6Input).length = 3 := by
  exact ⟨by decide, by decide⟩

/-- C6 amended: for any input whose qualifying sentences (stripped, longer
than 20 characters, after the sentence split) are exactly `q1 … q7`,
`parse_pdf_into_paragraphs` returns 3 paragraphs with sentence-group sizes
[3,3,1]: the first joins `q1 q2 q3`, the second `q4 q5 q6`, the third is
`q7` alone. -/
theorem pdf_paragraphs_grouping_amended (t : String)
    (q1 q2 q3 q4 q5 q6 q7 : List Char)
    (h : ((splitSentences (collapseWsL t.data)).map pyStripL).filter
        (fun s => decide (20 < s.length)) = [q1, q2, q3, q4, q5, q6, q7]) :
    parse_pdf_into_paragraphs t =
      [⟨q1 ++ ' ' :: (q2 ++ ' ' :: q3)⟩, ⟨q4 ++ ' ' :: (q5 ++ ' ' :: q6)⟩,
        (⟨q7⟩ : String)] := by
  show List.map (fun l => (⟨l⟩ : String))
      (pdfGroupGo [] (splitSentences (collapseWsL t.data))) = _
  rw [pdfGroupGo_eq_q, h]
  simp [pdfGroupQ, joinSepC]

set_option maxRecDepth 80000 in
/-- Witness for the amended C6 theorem at a concrete 7-sentence input. -/
theorem pdf_paragraphs_grouping_amended_witness :
    parse_pdf_into_paragraphs c6Input =
      ["Aaaa bbbb cccc dddd sss. Bbbb cccc dddd eeee aaa. Cccc dddd eeee ffff bbb.",
       "Dddd eeee ffff gggg ccc. Eeee ffff gggg hhhh ddd. Ffff gggg hhhh iiii eee.",
       "Gggg hhhh iiii jjjj fff."] := by
  have h := pdf_paragraphs_grouping_amended c6Input
    "Aaaa bbbb cccc dddd sss.".data "Bbbb cccc dddd eeee aaa.".data
    "Cccc dddd eeee ffff bbb.".data "Dddd eeee ffff gggg ccc.".data
    "Eeee ffff gggg hhhh ddd.".data "Ffff gggg hhhh iiii eee.".data
    "Gggg hhhh iiii jjjj fff.".data (by decide)
  exact h.trans (by decide)

/-! ## Claim C7: PDF extraction error handling -/

/-- A page from which no usable text comes: its extraction raised (the
source skips it) or returned an empty string (falsy `if text:`). -/
def pageUnusable : PageResult → Bool
  | .err => true
  | .text s => s.data.isEmpty

/-- C7 counterexample: when the PDF opens fine but every page yields no
usable text, `extract_text_from_pdf` returns the empty `full_text`
sentinel *without* any `error` key (the success path is taken with an
empty page-text list), contradicting the claim that the record always
"carries an explicit error marker" in that case. -/
theorem pdf_empty_extraction_error_marker_counterexample :
    pageUnusable (PageResult.text "") = true ∧
      (extract_text_from_pdf true (.ok [PageResult.text ""])).full_text = "" ∧
      (extract_text_from_pdf true (.ok [PageResult.text ""])).error = none := by
  exact ⟨by decide, by decide, by decide⟩

lemma pageText_none {p : PageResult} (h : pageUnusable p = true) :
    pageText p = none := by
  cases p with
  | err => rfl
  | text s =>
    simp only [pageUnusable] at h
    simp [pageText, h]

lemma filterMap_page_none {pages : List PageResult}
    (h : ∀ p ∈ pages, pageUnusable p = true) :
    pages.filterMap pageText = [] := by
  induction pages with
  | nil => rfl
  | cons p rest ih =>
    have hr := ih (fun q hq => h q (by simp [hq]))
    rw [List.filterMap_cons, pageText_none (h p (by simp)), hr]

/-- C7 amended: whenever no text can be extracted — the PDF collaborator
is unavailable, opening/parsing fails, or every page yields no usable
text — `extract_text_from_pdf` returns (rather than raising; the
embedding is a total function on the modelled failure modes) a record
whose `full_text` is the empty string, and the caller `process_pdf`
classifies exactly on this empty-text sentinel and returns `None`.  The
explicit `error` key, however, is present only in the first two cases; in
the zero-usable-pages case the record has no error marker. -/
theorem pdf_empty_extraction_amended (support : Bool)
    (opened : Except String (List PageResult))
    (h : support = false ∨ (∃ e, opened = .error e) ∨
      (∃ pages, opened = .ok pages ∧ ∀ p ∈ pages, pageUnusable p = true)) :
    (extract_text_from_pdf support opened).full_text = "" ∧
      ((extract_text_from_pdf support opened).error.isSome = true ↔
        (support = false ∨ ∃ e, opened = .error e)) ∧
      (∀ url, process_pdf url support (some opened) = none) := by
  rcases h with h | ⟨e, rfl⟩ | ⟨pages, rfl, hall⟩
  · subst h
    refine ⟨rfl, by simp [extract_text_from_pdf], ?_⟩
    intro url
    simp [process_pdf, extract_text_from_pdf]
  · cases support with
    | false =>
      refine ⟨rfl, by simp [extract_text_from_pdf], fun url => by
        simp [process_pdf, extract_text_from_pdf]⟩
    | true =>
      refine ⟨rfl, by simp [extract_text_from_pdf], fun url => by
        simp [process_pdf, extract_text_from_pdf]⟩
  · cases support with
    | false =>
      refine ⟨rfl, by simp [extract_text_from_pdf], fun url => by
        simp [process_pdf, extract_text_from_pdf]⟩
    | true =>
      have hempty := filterMap_page_none hall
      constructor
      · show (⟨collapseWsL (joinSepL _ _)⟩ : String) = ""
        rw [hempty]
        rfl
      constructor
      · simp only [extract_text_from_pdf]
        rw [show (!true) = false from rfl]
        simp [hempty]
      · intro url
        simp only [process_pdf, extract_text_from_pdf]
        rw [show (!true) = false from rfl]
        simp [hempty, joinSepL, collapseWsL, collapseAux]

/-- Witness for the amended C7 theorem: one page whose text is empty. -/
theorem pdf_empty_extraction_amended_witness :
    (extract_text_from_pdf true (.ok [PageResult.text ""])).full_text = "" ∧
      (extract_text_from_pdf true (.ok [PageResult.text ""])).error = none ∧
      process_pdf "https://example.org/guide.pdf" true
        (some (.ok [PageResult.text ""])) = none := by
  have h := pdf_empty_extraction_amended true (.ok [PageResult.text ""])
    (Or.inr (Or.inr ⟨[PageResult.text ""], rfl, by decide⟩))
  exact ⟨h.1, by decide, h.2.2 "https://example.org/guide.pdf"⟩

/-! ## Claim C4: section invariants of the HTML structural extractor -/

lemma headingLevel13_bounds {t : HTag} (h : t.isHeading13 = true) :
    1 ≤ t.headingLevel13 ∧ t.headingLevel13 ≤ 3 := by
  cases t <;> simp_all [HTag.isHeading13, HTag.headingLevel13]

lemma sectionsGo_level :
    ∀ (ns : List Node) (cur : Option Section),
      (∀ s, cur = some s → 1 ≤ s.level ∧ s.level ≤ 3) →
      ∀ sec ∈ sectionsGo cur ns, 1 ≤ sec.level ∧ sec.level ≤ 3 := by
  intro ns
  induction ns with
  | nil =>
    intro cur hcur sec hsec
    cases cur with
    | none => simp [sectionsGo] at hsec
    | some s =>
      simp only [sectionsGo, List.mem_singleton] at hsec
      subst hsec
      exact hcur _ rfl
  | cons n ns ih =>
    intro cur hcur sec hsec
    rw [sectionsGo.eq_def] at hsec
    simp only [] at hsec
    repeat' split at hsec
    all_goals try exact ih _ hcur _ hsec
    · rcases List.mem_cons.mp hsec with rfl | hmem
      · exact hcur _ rfl
      · refine ih _ ?_ _ hmem
        intro s' hs'
        cases hs'
        exact headingLevel13_bounds (by assumption)
    · refine ih _ ?_ _ hsec
      intro s' hs'
      cases hs'
      exact headingLevel13_bounds (by assumption)
    · refine ih _ ?_ _ hsec
      intro s' hs'
      cases hs'
      simpa using hcur _ rfl

/-- A node at which the structural walk opens its first section: walked,
outside script/style, with usable text, and a heading of level 1–3. -/
def qualifyingHeading (n : Node) : Bool :=
  n.tag.inStructuralWalk && !n.inScriptStyle && !(n.text = "") &&
    !(n.text.length < 5) && n.tag.isHeading13

lemma sectionsGo_none_dropWhile :
    ∀ ns : List Node,
      sectionsGo none ns =
        sectionsGo none (ns.dropWhile (fun n => !qualifyingHeading n)) := by
  intro ns
  induction ns with
  | nil => rfl
  | cons n ns ih =>
    by_cases hq : qualifyingHeading n = true
    · rw [List.dropWhile_cons]
      simp [hq]
    · rw [List.dropWhile_cons]
      have hq' : (!qualifyingHeading n) = true := by
        cases hb : qualifyingHeading n with
        | false => rfl
        | true => exact absurd hb hq
      simp only [hq', if_pos]
      rw [← ih]
      conv_lhs => rw [sectionsGo.eq_def]
      simp only []
      repeat' split
      any_goals rfl
      all_goals
        exfalso
        apply hq
        simp only [qualifyingHeading]
        simp_all

/-- C4: every section produced by the HTML structural extractor has
`1 ≤ level ≤ 3`, and the produced sections are exactly those of the node
stream starting at the first qualifying level-1–3 heading — everything
before it (including any paragraph-like text) is dropped and never
populates a section, so no orphan section exists. -/
theorem sections_level_bound_and_no_orphan (d : HtmlDoc) :
    (∀ sec ∈ (extract_all_text_with_structure d).sections,
        1 ≤ sec.level ∧ sec.level ≤ 3) ∧
      (extract_all_text_with_structure d).sections =
        sectionsGo none (d.nodes.dropWhile (fun n => !qualifyingHeading n)) := by
  constructor
  · intro sec hsec
    exact sectionsGo_level d.nodes none (fun s hs => by cases hs) sec hsec
  · exact sectionsGo_none_dropWhile d.nodes

/-- A small document: orphan text, then an `h2`, then a paragraph. -/
def c4Doc : HtmlDoc :=
  ⟨[⟨.p, "orphan text before any heading", false⟩,
    ⟨.h2, "Heading one", false⟩,
    ⟨.p, "Some paragraph content.", false⟩], []⟩

/-- Witness for C4 at a concrete document. -/
theorem sections_level_bound_and_no_orphan_witness :
    (extract_all_text_with_structure c4Doc).sections =
        [⟨"Heading one", 2, ["Some paragraph content."]⟩] ∧
      (1 ≤ (2 : Nat) ∧ (2 : Nat) ≤ 3) := by
  refine ⟨by decide, ?_⟩
  exact (sections_level_bound_and_no_orphan c4Doc).1
    ⟨"Heading one", 2, ["Some paragraph content."]⟩ (by decide)

/-! ## Claim C5: table invariants of the table extractor -/

lemma mem_tablesGo :
    ∀ (ts : List HtmlTable) (i : Nat) (t : Table), t ∈ tablesGo i ts →
      ∃ j tb, extractTable j tb = some t := by
  intro ts
  induction ts with
  | nil => intro i t h; simp [tablesGo] at h
  | cons tb ts ih =>
    intro i t h
    cases hx : extractTable i tb with
    | some tb' =>
      rw [tablesGo, hx] at h
      rcases List.mem_cons.mp h with rfl | hmem
      · exact ⟨i, tb, hx⟩
      · exact ih _ _ hmem
    | none =>
      rw [tablesGo, hx] at h
      exact ih _ _ h

lemma mkTable_props {idx : Nat} {headers : List String}
    {body : List (List String)} {t : Table}
    (h : mkTable idx headers body = some t) :
    (t.headers ≠ [] → t.column_count = t.headers.length) ∧
      (t.headers = [] → ∀ r rs, t.rows = r :: rs → t.column_count = r.length) ∧
      (∀ r ∈ t.rows, r ≠ t.headers) := by
  unfold mkTable at h
  split at h
  next hcond =>
    split at h
    next hh =>
      rw [Option.some_inj] at h
      subst h
      refine ⟨fun _ => rfl, fun hemp _ _ _ => ?_, fun r hr => ?_⟩
      · dsimp only at hemp
        rw [hemp] at hh
        simp at hh
      · dsimp only at hr
        rw [tableRows] at hr
        have h2 := (List.mem_filter.mp hr).2
        simp only [Bool.and_eq_true, decide_eq_true_eq] at h2
        dsimp only
        exact h2.2
    next hh =>
      rw [Option.some_inj] at h
      subst h
      refine ⟨fun hne => ?_, fun hemp r rs hrows => ?_, fun r hr => ?_⟩
      · exfalso
        apply hh
        dsimp only at hne
        cases hx : headers with
        | nil => exact absurd hx hne
        | cons a as => rfl
      · dsimp only at hrows ⊢
        rw [hrows]
      · dsimp only at hr
        rw [tableRows] at hr
        have h2 := (List.mem_filter.mp hr).2
        simp only [Bool.and_eq_true, decide_eq_true_eq] at h2
        dsimp only
        exact h2.2
  next => cases h

/-- C5: for every table produced by the table extractor, `column_count`
equals `len(headers)` when headers are non-empty and otherwise the width
of the first row (when one exists), and no kept row equals the header
row. -/
theorem tables_column_count_and_no_header_row (ts : List HtmlTable)
    (t : Table) (ht : t ∈ extract_all_tables ts) :
    (t.headers ≠ [] → t.column_count = t.headers.length) ∧
      (t.headers = [] → ∀ r rs, t.rows = r :: rs → t.column_count = r.length) ∧
      (∀ r ∈ t.rows, r ≠ t.headers) := by
  obtain ⟨j, tb, hx⟩ := mem_tablesGo ts 0 t ht
  exact mkTable_props hx

/-- A table whose `tbody` repeats the header row (and an empty row). -/
def c5Tables : List HtmlTable :=
  [⟨some [["H1", "H2"]], some [["a", "b"], ["H1", "H2"], []],
    [["H1", "H2"], ["a", "b"], ["H1", "H2"], []]⟩]

/-- The table record the extractor produces from `c5Tables`. -/
def c5Table : Table := ⟨1, ["H1", "H2"], [["a", "b"]], 1, 2⟩

/-- Witness for C5 at a concrete table. -/
theorem tables_column_count_and_no_header_row_witness :
    extract_all_tables c5Tables = [c5Table] ∧
      c5Table.column_count = c5Table.headers.length ∧
      ∀ r ∈ c5Table.rows, r ≠ c5Table.headers := by
  have h := tables_column_count_and_no_header_row c5Tables c5Table (by decide)
  exact ⟨by decide, h.1 (by decide), h.2.2⟩

/-! ## Claim C10: dosage values precede threshold values -/

lemma dosageScanF_types :
    ∀ (fuel : Nat) (l : List Char) (v : CVal), v ∈ dosageScanF fuel l →
      v.type = "dosage" := by
  intro fuel
  induction fuel with
  | zero => intro l v h; simp [dosageScanF] at h
  | succ n ih =>
    intro l v h
    cases l with
    | nil => simp [dosageScanF] at h
    | cons c cs =>
      rw [dosageScanF] at h
      cases htry : tryDosageAt (c :: cs) with
      | none =>
        rw [htry] at h
        exact ih _ _ h
      | some r =>
        rw [htry] at h
        rcases r with ⟨len, num, u⟩
        rcases List.mem_cons.mp h with rfl | hmem
        · rfl
        · exact ih _ _ hmem

lemma thresholdScanF_types :
    ∀ (fuel : Nat) (l : List Char) (v : CVal), v ∈ thresholdScanF fuel l →
      v.type = "threshold" := by
  intro fuel
  induction fuel with
  | zero => intro l v h; simp [thresholdScanF] at h
  | succ n ih =>
    intro l v h
    cases l with
    | nil => simp [thresholdScanF] at h
    | cons c cs =>
      rw [thresholdScanF] at h
      cases htry : tryThresholdOps THRESH_OPS (c :: cs) with
      | none =>
        rw [htry] at h
        exact ih _ _ h
      | some r =>
        rw [htry] at h
        rcases r with ⟨len, op, num, u⟩
        rcases List.mem_cons.mp h with rfl | hmem
        · rfl
        · exact ih _ _ hmem

lemma get_append_left_mem {α : Type} (A B : List α) :
    ∀ (i : Nat) (h : i < (A ++ B).length), i < A.length →
      (A ++ B).get ⟨i, h⟩ ∈ A := by
  induction A with
  | nil => intro i h hA; exact absurd hA (by simp)
  | cons a A ih =>
    intro i h hA
    cases i with
    | zero => simp
    | succ n =>
      simp only [List.cons_append, List.get_cons_succ]
      exact List.mem_cons_of_mem a (ih n _ (by simpa using hA))

lemma get_append_right_mem {α : Type} (A B : List α) :
    ∀ (i : Nat) (h : i < (A ++ B).length), A.length ≤ i →
      (A ++ B).get ⟨i, h⟩ ∈ B := by
  induction A with
  | nil => intro i h hA; exact List.get_mem _ _ _
  | cons a A ih =>
    intro i h hA
    cases i with
    | zero => simp at hA
    | succ n =>
      simp only [List.cons_append, List.get_cons_succ]
      exact ih n _ (by simpa using hA)

/-- C10: in the list returned by `extract_clinical_values`, every value of
type `'dosage'` appears before every value of type `'threshold'`: the
dosage pass runs to completion and its results are appended before the
threshold pass results. -/
theorem clinical_values_dosage_before_threshold (text : String) (i j : Nat)
    (hi : i < (extract_clinical_values text).length)
    (hj : j < (extract_clinical_values text).length)
    (hti : ((extract_clinical_values text).get ⟨i, hi⟩).type = "threshold")
    (htj : ((extract_clinical_values text).get ⟨j, hj⟩).type = "dosage") :
    j < i := by
  have hiA : (dosageScanF (text.data.length + 1) text.data).length ≤ i := by
    by_contra hlt
    push_neg at hlt
    have hmem : (extract_clinical_values text).get ⟨i, hi⟩ ∈
        dosageScanF (text.data.length + 1) text.data :=
      get_append_left_mem _ _ i hi hlt
    have hd := dosageScanF_types _ _ _ hmem
    rw [hti] at hd
    exact absurd hd (by decide)
  have hjA : j < (dosageScanF (text.data.length + 1) text.data).length := by
    by_contra hge
    push_neg at hge
    have hmem : (extract_clinical_values text).get ⟨j, hj⟩ ∈
        thresholdScanF (text.data.length + 1) text.data :=
      get_append_right_mem _ _ j hj hge
    have hd := thresholdScanF_types _ _ _ hmem
    rw [htj] at hd
    exact absurd hd (by decide)
  omega

set_option maxRecDepth 80000 in
/-- Witness for C10: on `"ALT ≥ 1,000 U/L"` the dosage value (index 0)
precedes the threshold value (index 1). -/
theorem clinical_values_dosage_before_threshold_witness :
    (extract_clinical_values "ALT ≥ 1,000 U/L").length = 2 ∧ (0 : Nat) < 1 :=
  ⟨by decide,
    clinical_values_dosage_before_threshold "ALT ≥ 1,000 U/L" 1 0
      (by decide) (by decide) (by decide) (by decide)⟩

/-! ## Claim C8: validity of content links -/

set_option maxRecDepth 80000 in
/-- C8 counterexample: the claimed if-and-only-if condition diverges from
the code in both directions.  (1) A link path that extends the base path
by characters rather than whole segments (`/hcc` → `/hcc-v2`) is accepted
by the code (plain `startswith`) but not by the claim.  (2) A
whole-segment descendant outside `/practice-guidelines/` is accepted by
the claim's branch (c) but rejected by the code, which also requires
`"/practice-guidelines/" in url`.  (3) A URL whose query string ends in
".pdf" is accepted by the code (`url.endswith(".pdf")` on the whole URL)
but its *path* has no PDF extension, so the claim rejects it. -/
theorem is_valid_content_link_spec_counterexample :
    (is_valid_content_link "https://www.aasld.org/practice-guidelines/hcc-v2"
        "https://www.aasld.org/practice-guidelines/hcc" = true ∧
      spec_valid_link_original "https://www.aasld.org/practice-guidelines/hcc-v2"
        "https://www.aasld.org/practice-guidelines/hcc" = false) ∧
    (is_valid_content_link "https://www.aasld.org/guidance/hcv/advanced"
        "https://www.aasld.org/guidance/hcv" = false ∧
      spec_valid_link_original "https://www.aasld.org/guidance/hcv/advanced"
        "https://www.aasld.org/guidance/hcv" = true) ∧
    (is_valid_content_link "https://example.com/view?file=.pdf"
        "https://www.aasld.org/practice-guidelines" = true ∧
      spec_valid_link_original "https://example.com/view?file=.pdf"
        "https://www.aasld.org/practice-guidelines" = false) := by
  exact ⟨⟨by decide, by decide⟩, ⟨by decide, by decide⟩, ⟨by decide, by decide⟩⟩

/-- C8 amended: `is_valid_content_link url base_url` returns `True` if and
only if `url` is non-empty, differs from `base_url`, matches no
reject-list pattern, and one of: (a) the netloc contains a known
journal/identifier-resolver host; (b) the whole URL string ends in ".pdf"
or contains the file-storage segment; (c) the netloc contains the site's
own domain, the URL contains "/practice-guidelines/", and the
trailing-slash-stripped link path is a proper string-prefix extension of
the base path (not necessarily by whole segments). -/
theorem is_valid_content_link_amended_iff (url base_url : String) :
    is_valid_content_link url base_url = spec_valid_link_amended url base_url := by
  unfold is_valid_content_link spec_valid_link_amended
  cases h1 : (url == "") <;> cases h2 : (url == base_url) <;>
    cases h3 : linkRejected url <;> cases h4 : linkJournalHost url <;>
    cases h5 : linkPdfOrFiles url <;> cases h6 : linkOwnSite url <;>
    simp [h1, h2, h3, h4, h5, h6]

/-! ## Claim C1: idempotence of `clean_text`

Strategy: let `t = clean_text s`.  Under the hypothesis that the
boilerplate-stripping and copyright-truncation stages leave `t` unchanged,
every other stage of a second `clean_text` pass is the identity on `t`,
because the first pass establishes structural invariants of `t`
(normalized whitespace, no camel-case or sentence-punctuation adjacency,
no run of more than three dots or dashes, stripped ends) that each later
stage preserves. -/

/-- Whitespace is normalized: every whitespace character is a plain space
and no two whitespace characters are adjacent. -/
def WsOk (l : List Char) : Prop :=
  (∀ c ∈ l, pyWs c = true → c = ' ') ∧
    l.Chain' (fun a b => ¬(pyWs a = true ∧ pyWs b = true))

/-- No adjacent pair with `p` on the left and `q` on the right (no
remaining match of the corresponding two-character substitution). -/
def NoPairs (p q : Char → Bool) (l : List Char) : Prop :=
  l.Chain' (fun a b => ¬(p a = true ∧ q b = true))

/-- `runCap d k l` holds when the leading run of `d` in `l` has length at
most `k` and every later run of `d` has length at most 3. -/
def runCap (d : Char) : Nat → List Char → Bool
  | _, [] => true
  | 0, c :: cs => if c = d then false else runCap d 3 cs
  | k + 1, c :: cs => if c = d then runCap d k cs else runCap d 3 cs

lemma chain_of_pre {α : Type} {R : α → α → Prop} {x y : List α}
    (h : x.Chain' R) (hp : y <+: x) : y.Chain' R := by
  obtain ⟨t, rfl⟩ := hp
  exact (List.chain'_append.mp h).1

lemma chain_of_suf {α : Type} {R : α → α → Prop} {x y : List α}
    (h : x.Chain' R) (hs : y <:+ x) : y.Chain' R := by
  obtain ⟨t, rfl⟩ := hs
  exact (List.chain'_append.mp h).2.1

lemma wsok_of_pre {x y : List Char} (h : WsOk x) (hp : y <+: x) : WsOk y := by
  obtain ⟨t, rfl⟩ := hp
  exact ⟨fun c hc => h.1 c (List.mem_append_left t hc),
    chain_of_pre h.2 ⟨t, rfl⟩⟩

lemma wsok_of_suf {x y : List Char} (h : WsOk x) (hs : y <:+ x) : WsOk y := by
  obtain ⟨t, rfl⟩ := hs
  exact ⟨fun c hc => h.1 c (List.mem_append_right t hc),
    chain_of_suf h.2 ⟨t, rfl⟩⟩

lemma runCap_mono (d : Char) :
    ∀ (l : List Char) (k k' : Nat), k ≤ k' → runCap d k l = true →
      runCap d k' l = true := by
  intro l
  induction l with
  | nil => intro k k' _ _; cases k' <;> rfl
  | cons c cs ih =>
    intro k k' hkk h
    by_cases hc : c = d
    · cases k with
      | zero => rw [runCap, if_pos hc] at h; cases h
      | succ a =>
        cases k' with
        | zero => omega
        | succ b =>
          rw [runCap, if_pos hc] at h ⊢
          exact ih a b (by omega) h
    · cases k with
      | zero =>
        rw [runCap, if_neg hc] at h
        cases k' with
        | zero => rw [runCap, if_neg hc]; exact h
        | succ b => rw [runCap, if_neg hc]; exact h
      | succ a =>
        rw [runCap, if_neg hc] at h
        cases k' with
        | zero => omega
        | succ b => rw [runCap, if_neg hc]; exact h

lemma runCap_of_append_left (d : Char) :
    ∀ (x t : List Char) (k : Nat), runCap d k (x ++ t) = true →
      runCap d k x = true := by
  intro x
  induction x with
  | nil => intro t k _; cases k <;> rfl
  | cons c cs ih =>
    intro t k h
    rw [List.cons_append] at h
    by_cases hc : c = d
    · cases k with
      | zero => rw [runCap, if_pos hc] at h; cases h
      | succ a =>
        rw [runCap, if_pos hc] at h
        rw [runCap, if_pos hc]
        exact ih t a h
    · cases k with
      | zero =>
        rw [runCap, if_neg hc] at h
        rw [runCap, if_neg hc]
        exact ih t 3 h
      | succ a =>
        rw [runCap, if_neg hc] at h
        rw [runCap, if_neg hc]
        exact ih t 3 h

lemma runCap_of_append_right (d : Char) :
    ∀ (t x : List Char) (k : Nat), k ≤ 3 → runCap d k (t ++ x) = true →
      runCap d 3 x = true := by
  intro t
  induction t with
  | nil =>
    intro x k hk h
    exact runCap_mono d x k 3 hk h
  | cons c cs ih =>
    intro x k hk h
    rw [List.cons_append] at h
    by_cases hc : c = d
    · cases k with
      | zero => rw [runCap, if_pos hc] at h; cases h
      | succ a =>
        rw [runCap, if_pos hc] at h
        exact ih x a (by omega) h
    · cases k with
      | zero =>
        rw [runCap, if_neg hc] at h
        exact ih x 3 (by omega) h
      | succ a =>
        rw [runCap, if_neg hc] at h
        exact ih x 3 (by omega) h

lemma runCap_of_pre {d : Char} {x y : List Char} (h : runCap d 3 x = true)
    (hp : y <+: x) : runCap d 3 y = true := by
  obtain ⟨t, rfl⟩ := hp
  exact runCap_of_append_left d y t 3 h

lemma runCap_of_suf {d : Char} {x y : List Char} (h : runCap d 3 x = true)
    (hs : y <:+ x) : runCap d 3 y = true := by
  obtain ⟨t, rfl⟩ := hs
  exact runCap_of_append_right d t y 3 (by omega) h

lemma ws_char_classes {c : Char} (h : pyWs c = true) :
    c = ' ' ∨ c = '\t' ∨ c = '\n' ∨ c = '\r' ∨ c = '\x0b' ∨ c = '\x0c' := by
  have := h
  simp only [pyWs, Bool.or_eq_true, decide_eq_true_eq] at this
  tauto

lemma lowAZ_not_ws {c : Char} (h : lowAZ c = true) : pyWs c = false := by
  cases hw : pyWs c with
  | false => rfl
  | true =>
    rcases ws_char_classes hw with rfl | rfl | rfl | rfl | rfl | rfl <;>
      cases h

lemma upAZ_not_ws {c : Char} (h : upAZ c = true) : pyWs c = false := by
  cases hw : pyWs c with
  | false => rfl
  | true =>
    rcases ws_char_classes hw with rfl | rfl | rfl | rfl | rfl | rfl <;>
      cases h

lemma sentC_not_ws {c : Char} (h : sentC c = true) : pyWs c = false := by
  cases hw : pyWs c with
  | false => rfl
  | true =>
    rcases ws_char_classes hw with rfl | rfl | rfl | rfl | rfl | rfl <;>
      cases h

lemma upAZ_not_lowAZ {c : Char} (h : upAZ c = true) : lowAZ c = false := by
  simp only [upAZ, Bool.and_eq_true, decide_eq_true_eq] at h
  cases hl : lowAZ c with
  | false => rfl
  | true =>
    simp only [lowAZ, Bool.and_eq_true, decide_eq_true_eq] at hl
    exact absurd (le_trans hl.1 h.2) (by decide)

lemma upAZ_not_sentC {c : Char} (h : upAZ c = true) : sentC c = false := by
  cases hs : sentC c with
  | false => rfl
  | true =>
    have h3 : (c = '.' ∨ c = '!') ∨ c = '?' := by
      simpa [sentC, Bool.or_eq_true] using hs
    have : c = '.' ∨ c = '!' ∨ c = '?' := by tauto
    rcases this with rfl | rfl | rfl <;> cases h

/-! ### The whitespace-collapsing stage establishes `WsOk` -/

lemma collapseAux_true_head :
    ∀ (l : List Char) (c : Char), (collapseAux true l).head? = some c →
      pyWs c = false := by
  intro l
  induction l with
  | nil => intro c h; cases h
  | cons a cs ih =>
    intro c h
    rw [collapseAux] at h
    by_cases ha : pyWs a = true
    · rw [if_pos ha, if_pos rfl] at h
      exact ih c h
    · rw [if_neg ha] at h
      cases h
      cases hb : pyWs a with
      | false => rfl
      | true => exact absurd hb ha

lemma wsok_nil : WsOk [] := ⟨by simp, List.chain'_nil⟩

lemma wsok_cons {a : Char} {cs : List Char} (h : WsOk (a :: cs)) :
    WsOk cs ∧ (∀ b ∈ cs.head?, ¬(pyWs a = true ∧ pyWs b = true)) ∧
      (pyWs a = true → a = ' ') := by
  refine ⟨⟨fun c hc hw => h.1 c (List.mem_cons_of_mem a hc) hw,
    (List.chain'_cons'.mp h.2).2⟩, (List.chain'_cons'.mp h.2).1,
    fun hw => h.1 a (List.mem_cons_self a cs) hw⟩

lemma wsok_cons_of {a : Char} {cs : List Char} (hcs : WsOk cs)
    (hj : ∀ b ∈ cs.head?, ¬(pyWs a = true ∧ pyWs b = true))
    (ha : pyWs a = true → a = ' ') : WsOk (a :: cs) := by
  refine ⟨fun c hc hw => ?_, List.chain'_cons'.mpr ⟨hj, hcs.2⟩⟩
  rcases List.mem_cons.mp hc with rfl | hmem
  · exact ha hw
  · exact hcs.1 c hmem hw

lemma collapseAux_wsok :
    ∀ l : List Char, WsOk (collapseAux false l) ∧ WsOk (collapseAux true l) := by
  intro l
  induction l with
  | nil => exact ⟨wsok_nil, wsok_nil⟩
  | cons a cs ih =>
    by_cases ha : pyWs a = true
    · constructor
      · rw [collapseAux, if_pos ha]
        simp only [Bool.false_eq_true, if_false]
        refine wsok_cons_of ih.2 ?_ (fun _ => rfl)
        intro b hb
        rw [collapseAux_true_head cs b hb]
        simp
      · rw [collapseAux, if_pos ha]
        simp only [if_pos]
        exact ih.2
    · have hfalse : WsOk (a :: collapseAux false cs) := by
        refine wsok_cons_of ih.1 ?_ (fun hw => absurd hw ha)
        intro b hb
        intro hcon
        exact ha hcon.1
      constructor
      · rw [collapseAux, if_neg ha]
        exact hfalse
      · rw [collapseAux, if_neg ha]
        exact hfalse

lemma collapseWsL_wsok (l : List Char) : WsOk (collapseWsL l) :=
  (collapseAux_wsok l).1

lemma collapseAux_id :
    ∀ l : List Char, (WsOk l → collapseAux false l = l) ∧
      (WsOk l → (∀ c ∈ l.head?, pyWs c = false) → collapseAux true l = l) := by
  intro l
  induction l with
  | nil => exact ⟨fun _ => rfl, fun _ _ => rfl⟩
  | cons a cs ih =>
    constructor
    · intro h
      obtain ⟨hcs, hj, ha⟩ := wsok_cons h
      by_cases hw : pyWs a = true
      · rw [collapseAux, if_pos hw]
        simp only [Bool.false_eq_true, if_false]
        rw [ha hw]
        congr 1
        refine ih.2 hcs ?_
        intro c hc
        have := hj c hc
        cases hcw : pyWs c with
        | false => rfl
        | true => exact absurd ⟨hw, hcw⟩ this
      · rw [collapseAux, if_neg hw, ih.1 hcs]
    · intro h hhead
      obtain ⟨hcs, hj, ha⟩ := wsok_cons h
      have hw : pyWs a = false := hhead a rfl
      rw [collapseAux, if_neg (by rw [hw]; exact Bool.false_ne_true), ih.1 hcs]

lemma collapseWsL_id {l : List Char} (h : WsOk l) : collapseWsL l = l :=
  (collapseAux_id l).1 h

/-! ### The newline and space/tab stages are the identity on `WsOk` text -/

lemma sp3go_id {l : List Char} (h : ∀ c ∈ l, c ≠ '\n') : sp3go none l = l := by
  induction l with
  | nil => rfl
  | cons c cs ih =>
    rw [sp3go, if_neg (h c (List.mem_cons_self c cs))]
    rw [ih (fun c' hc' => h c' (List.mem_cons_of_mem c hc'))]

lemma wsok_no_nl {l : List Char} (h : WsOk l) : ∀ c ∈ l, c ≠ '\n' := by
  intro c hc hnl
  subst hnl
  have := h.1 '\n' hc (by decide)
  cases this

lemma spaceTab_ws {c : Char} (h : spaceTab c = true) : pyWs c = true := by
  have : c = ' ' ∨ c = '\t' := by simpa [spaceTab] using h
  rcases this with rfl | rfl <;> decide

lemma sp4Aux_id :
    ∀ l : List Char, (WsOk l → sp4Aux false l = l) ∧
      (WsOk l → (∀ c ∈ l.head?, pyWs c = false) → sp4Aux true l = l) := by
  intro l
  induction l with
  | nil => exact ⟨fun _ => rfl, fun _ _ => rfl⟩
  | cons a cs ih =>
    constructor
    · intro h
      obtain ⟨hcs, hj, ha⟩ := wsok_cons h
      by_cases hst : spaceTab a = true
      · have hw := spaceTab_ws hst
        rw [sp4Aux, if_pos hst]
        simp only [Bool.false_eq_true, if_false]
        rw [ha hw]
        congr 1
        refine ih.2 hcs ?_
        intro c hc
        have := hj c hc
        cases hcw : pyWs c with
        | false => rfl
        | true => exact absurd ⟨hw, hcw⟩ this
      · rw [sp4Aux, if_neg hst, ih.1 hcs]
    · intro h hhead
      obtain ⟨hcs, hj, ha⟩ := wsok_cons h
      have hw : pyWs a = false := hhead a rfl
      have hst : ¬spaceTab a = true := by
        intro hst
        rw [spaceTab_ws hst] at hw
        cases hw
      rw [sp4Aux, if_neg hst, ih.1 hcs]

lemma sp4L_id {l : List Char} (h : WsOk l) : sp4L l = l := (sp4Aux_id l).1 h

/-! ### Generic lemmas about the space-inserting substitutions -/

lemma insertSpaceSub_head (p q : Char → Bool) (l : List Char) :
    (insertSpaceSub p q l).head? = l.head? := by
  cases l with
  | nil => rfl
  | cons a cs =>
    cases cs with
    | nil => rfl
    | cons b rest =>
      rw [insertSpaceSub]
      by_cases h : (p a && q b) = true
      · rw [if_pos h]
        rfl
      · rw [if_neg h]
        rfl

lemma insertSpaceSub_mem (p q : Char → Bool) (l : List Char) :
    ∀ x ∈ insertSpaceSub p q l, x = ' ' ∨ x ∈ l := by
  induction l using insertSpaceSub.induct p q with
  | case1 => intro x h; simp [insertSpaceSub] at h
  | case2 c => intro x h; exact Or.inr h
  | case3 a b rest hab ih =>
    intro x h
    rw [insertSpaceSub, if_pos hab] at h
    simp only [List.mem_cons] at h
    rcases h with rfl | rfl | rfl | h
    · exact Or.inr (by simp)
    · exact Or.inl rfl
    · exact Or.inr (by simp)
    · rcases ih x h with h' | h'
      · exact Or.inl h'
      · exact Or.inr (by simp [h'])
  | case4 a b rest hab ih =>
    intro x h
    rw [insertSpaceSub, if_neg hab] at h
    rcases List.mem_cons.mp h with rfl | h
    · exact Or.inr (by simp)
    · rcases ih x h with h' | h'
      · exact Or.inl h'
      · exact Or.inr (by simp [h'])

lemma insertSpaceSub_chain (p q : Char → Bool) (R : Char → Char → Prop)
    (hp : ∀ x, p x = true → R x ' ') (hq : ∀ y, q y = true → R ' ' y) :
    ∀ l : List Char, l.Chain' R → (insertSpaceSub p q l).Chain' R := by
  intro l
  induction l using insertSpaceSub.induct p q with
  | case1 => intro _; simp [insertSpaceSub]
  | case2 c => intro _; simp [insertSpaceSub]
  | case3 a b rest hab ih =>
    intro h
    rw [insertSpaceSub, if_pos hab]
    have hab2 := hab
    simp only [Bool.and_eq_true] at hab2
    have hpa : p a = true := hab2.1
    have hqb : q b = true := hab2.2
    obtain ⟨hab', htail⟩ := List.chain'_cons.mp h
    obtain ⟨hjb, hrest⟩ := List.chain'_cons'.mp htail
    refine List.chain'_cons.mpr ⟨hp a hpa, List.chain'_cons.mpr ⟨hq b hqb, ?_⟩⟩
    refine List.chain'_cons'.mpr ⟨?_, ih hrest⟩
    intro y hy
    rw [insertSpaceSub_head p q rest] at hy
    exact hjb y hy
  | case4 a b rest hab ih =>
    intro h
    rw [insertSpaceSub, if_neg hab]
    obtain ⟨hab', htail⟩ := List.chain'_cons.mp h
    refine List.chain'_cons'.mpr ⟨?_, ih htail⟩
    intro y hy
    rw [insertSpaceSub_head] at hy
    simp only [List.head?_cons, Option.mem_def, Option.some_inj] at hy
    subst hy
    exact hab'

lemma insertSpaceSub_nopairs (p q : Char → Bool) (hp' : p ' ' = false)
    (hq' : q ' ' = false) (hqp : ∀ x, q x = true → p x = false) :
    ∀ l : List Char, NoPairs p q (insertSpaceSub p q l) := by
  intro l
  induction l using insertSpaceSub.induct p q with
  | case1 => simp [insertSpaceSub, NoPairs]
  | case2 c => simp [insertSpaceSub, NoPairs]
  | case3 a b rest hab ih =>
    rw [insertSpaceSub, if_pos hab]
    have hab2 := hab
    simp only [Bool.and_eq_true] at hab2
    have hqb : q b = true := hab2.2
    refine List.chain'_cons.mpr ⟨?_, List.chain'_cons.mpr ⟨?_, ?_⟩⟩
    · intro hcon
      rw [hq'] at hcon
      cases hcon.2
    · intro hcon
      rw [hp'] at hcon
      cases hcon.1
    · refine List.chain'_cons'.mpr ⟨?_, ih⟩
      intro y hy hcon
      rw [hqp b hqb] at hcon
      cases hcon.1
  | case4 a b rest hab ih =>
    rw [insertSpaceSub, if_neg hab]
    refine List.chain'_cons'.mpr ⟨?_, ih⟩
    intro y hy hcon
    rw [insertSpaceSub_head] at hy
    simp only [List.head?_cons, Option.mem_def, Option.some_inj] at hy
    subst hy
    exact hab (by rw [hcon.1, hcon.2]; rfl)

lemma insertSpaceSub_id (p q : Char → Bool) :
    ∀ l : List Char, NoPairs p q l → insertSpaceSub p q l = l := by
  intro l
  induction l using insertSpaceSub.induct p q with
  | case1 => intro _; rfl
  | case2 c => intro _; rfl
  | case3 a b rest hab ih =>
    intro h
    have hcon := (List.chain'_cons.mp h).1
    have hab2 := hab
    simp only [Bool.and_eq_true] at hab2
    exact absurd ⟨hab2.1, hab2.2⟩ hcon
  | case4 a b rest hab ih =>
    intro h
    rw [insertSpaceSub, if_neg hab, ih (List.chain'_cons.mp h).2]

lemma runCap_cons_ne (d c : Char) (cs : List Char) (hc : ¬c = d) (k : Nat) :
    runCap d k (c :: cs) = runCap d 3 cs := by
  cases k with
  | zero => rw [runCap, if_neg hc]
  | succ a => rw [runCap, if_neg hc]

lemma runCap_cons_self (d : Char) (cs : List Char) (k : Nat) :
    runCap d (k + 1) (d :: cs) = runCap d k cs := by
  rw [runCap, if_pos rfl]

example (d : Char) (cs : List Char) : runCap d 3 (d :: cs) = runCap d 2 cs := by
  simp only [runCap_cons_self]

example (d : Char) (cs : List Char) : runCap d 3 (d :: cs) = runCap d 2 cs := by
  rw [show (3 : Nat) = 2 + 1 from rfl, runCap_cons_self]

lemma runCap_cons_self_zero (d : Char) (cs : List Char) :
    runCap d 0 (d :: cs) = false := by
  rw [runCap, if_pos rfl]

lemma runSubGo_nil (d : Char) (n : Nat) :
    runSubGo d n [] = List.replicate (min n 3) d := by
  rw [runSubGo]

lemma runSubGo_head_pos (d : Char) :
    ∀ (l : List Char) (n : Nat), 1 ≤ n → (runSubGo d n l).head? = some d := by
  intro l
  induction l with
  | nil =>
    intro n hn
    rw [runSubGo_nil]
    have h1 : 1 ≤ min n 3 := by omega
    cases hm : min n 3 with
    | zero => omega
    | succ m => rw [List.replicate_succ]; rfl
  | cons c cs ih =>
    intro n hn
    rw [runSubGo]
    by_cases hc : c = d
    · rw [if_pos hc]
      exact ih (n + 1) (by omega)
    · rw [if_neg hc]
      have h1 : 1 ≤ min n 3 := by omega
      cases hm : min n 3 with
      | zero => omega
      | succ m => rw [List.replicate_succ]; rfl

lemma runSub3_head (d : Char) (l : List Char) :
    (runSub3 d l).head? = l.head? := by
  cases l with
  | nil => rfl
  | cons c cs =>
    rw [runSub3, runSubGo]
    by_cases hc : c = d
    · rw [if_pos hc, runSubGo_head_pos d cs 1 (by omega), hc]
      rfl
    · rw [if_neg hc]
      rfl

lemma runSubGo_mem (d : Char) :
    ∀ (l : List Char) (n : Nat) (x : Char), x ∈ runSubGo d n l →
      x = d ∨ x ∈ l := by
  intro l
  induction l with
  | nil =>
    intro n x h
    rw [runSubGo_nil] at h
    exact Or.inl (List.eq_of_mem_replicate h)
  | cons c cs ih =>
    intro n x h
    rw [runSubGo] at h
    by_cases hc : c = d
    · rw [if_pos hc] at h
      rcases ih (n + 1) x h with h' | h'
      · exact Or.inl h'
      · exact Or.inr (List.mem_cons_of_mem c h')
    · rw [if_neg hc] at h
      rcases List.mem_append.mp h with h' | h'
      · exact Or.inl (List.eq_of_mem_replicate h')
      · rcases List.mem_cons.mp h' with rfl | h''
        · exact Or.inr (List.mem_cons_self x cs)
        · rcases ih 0 x h'' with h3 | h3
          · exact Or.inl h3
          · exact Or.inr (List.mem_cons_of_mem c h3)

lemma chain_replicate_of {R : Char → Char → Prop} {d : Char} :
    ∀ m : Nat, (2 ≤ m → R d d) → List.Chain' R (List.replicate m d) := by
  intro m
  induction m with
  | zero => intro _; simp
  | succ m ih =>
    intro h
    rw [List.replicate_succ]
    refine List.chain'_cons'.mpr ⟨?_, ih (fun h2 => h (by omega))⟩
    intro y hy
    cases m with
    | zero => cases hy
    | succ m' =>
      rw [List.replicate_succ] at hy
      simp only [List.head?_cons, Option.mem_def, Option.some_inj] at hy
      subst hy
      exact h (by omega)

lemma getLast_replicate_succ (d : Char) :
    ∀ m : Nat, (List.replicate (m + 1) d).getLast? = some d := by
  intro m
  induction m with
  | zero => rfl
  | succ m ih =>
    rw [List.replicate_succ, List.replicate_succ]
    rw [List.getLast?_cons_cons]
    rw [← List.replicate_succ]
    exact ih

lemma runSubGo_chain (d : Char) (R : Char → Char → Prop) :
    ∀ (l : List Char) (n : Nat), l.Chain' R →
      (1 ≤ n → ∀ y ∈ l.head?, R d y) → (2 ≤ n → R d d) →
      (runSubGo d n l).Chain' R := by
  intro l
  induction l with
  | nil =>
    intro n _ _ h2
    rw [runSubGo_nil]
    exact chain_replicate_of (min n 3) (fun hm => h2 (by omega))
  | cons c cs ih =>
    intro n h h1 h2
    rw [runSubGo]
    by_cases hc : c = d
    · rw [if_pos hc]
      refine ih (n + 1) (List.chain'_cons'.mp h).2 ?_ ?_
      · intro _ y hy
        have := (List.chain'_cons'.mp h).1 y hy
        rw [hc] at this
        exact this
      · intro hge
        have := h1 (by omega) c (by rfl)
        rw [hc] at this
        exact this
    · rw [if_neg hc]
      refine List.chain'_append.mpr ⟨?_, ?_, ?_⟩
      · exact chain_replicate_of (min n 3) (fun hm => h2 (by omega))
      · refine List.chain'_cons'.mpr ⟨?_, ih 0 (List.chain'_cons'.mp h).2
          (by omega) (by omega)⟩
        intro y hy
        rw [show runSubGo d 0 cs = runSub3 d cs from rfl, runSub3_head] at hy
        exact (List.chain'_cons'.mp h).1 y hy
      · intro x hx y hy
        simp only [List.head?_cons, Option.mem_def, Option.some_inj] at hy
        subst hy
        cases hm : min n 3 with
        | zero => rw [hm] at hx; cases hx
        | succ m =>
          rw [hm, getLast_replicate_succ] at hx
          simp only [Option.mem_def, Option.some_inj] at hx
          subst hx
          exact h1 (by omega) c (by rfl)

lemma runCap_replicate_self (d : Char) :
    ∀ m : Nat, m ≤ 3 → runCap d 3 (List.replicate m d) = true := by
  intro m hm
  interval_cases m <;> simp [runCap]

lemma runCap_replicate_append (d c : Char) (z : List Char) (hc : ¬c = d) :
    ∀ m : Nat, m ≤ 3 →
      runCap d 3 (List.replicate m d ++ c :: z) = runCap d 3 z := by
  intro m hm
  interval_cases m <;>
    simp [runCap_cons_ne d c z hc, List.replicate, runCap_cons_self,
      runCap_cons_self_zero, runCap, hc]

lemma runSubGo_runCap (d : Char) :
    ∀ (l : List Char) (n : Nat), runCap d 3 (runSubGo d n l) = true := by
  intro l
  induction l with
  | nil =>
    intro n
    rw [runSubGo_nil]
    exact runCap_replicate_self d (min n 3) (by omega)
  | cons c cs ih =>
    intro n
    rw [runSubGo]
    by_cases hc : c = d
    · rw [if_pos hc]
      exact ih (n + 1)
    · rw [if_neg hc]
      rw [runCap_replicate_append d c _ hc (min n 3) (by omega)]
      exact ih 0

lemma runCap_replicate_other (d e : Char) (hde : ¬e = d) :
    ∀ (m k : Nat), runCap d k (List.replicate m e) = true := by
  intro m
  induction m with
  | zero => intro k; cases k <;> rfl
  | succ m ih =>
    intro k
    rw [List.replicate_succ, runCap_cons_ne d e _ hde]
    exact ih 3

lemma runCap_skip_replicate (d e : Char) (hde : ¬e = d) (z : List Char) :
    ∀ (m K : Nat), 1 ≤ m →
      runCap d K (List.replicate m e ++ z) = runCap d 3 z := by
  intro m
  induction m with
  | zero => intro K h; omega
  | succ m ih =>
    intro K _
    rw [List.replicate_succ, List.cons_append, runCap_cons_ne d e _ hde]
    cases m with
    | zero => rfl
    | succ m' => exact ih 3 (by omega)

lemma runCap_head_indep (d : Char) {x : List Char} {y : Char}
    (hy : x.head? = some y) (hyd : ¬y = d) (K K' : Nat) :
    runCap d K x = runCap d K' x := by
  cases x with
  | nil => cases hy
  | cons c cs =>
    have hcd : ¬c = d := by
      simp only [List.head?_cons, Option.some_inj] at hy
      rw [hy]
      exact hyd
    rw [runCap_cons_ne d c cs hcd, runCap_cons_ne d c cs hcd]

lemma runSubGo_runCap_other (d e : Char) (hde : ¬e = d) :
    ∀ (l : List Char) (n k : Nat), runCap d k l = true → (1 ≤ n → k = 3) →
      runCap d k (runSubGo e n l) = true := by
  intro l
  induction l with
  | nil =>
    intro n k _ _
    rw [runSubGo_nil]
    exact runCap_replicate_other d e hde (min n 3) k
  | cons c cs ih =>
    intro n k h hn
    rw [runSubGo]
    by_cases hc : c = e
    · rw [if_pos hc]
      have hce : ¬c = d := by
        rw [hc]
        exact hde
      have hcs : runCap d 3 cs = true := by
        rw [runCap_cons_ne d c cs hce] at h
        exact h
      have hrec := ih (n + 1) 3 hcs (fun _ => rfl)
      by_cases hn1 : 1 ≤ n
      · rw [hn hn1]
        exact hrec
      · rw [runCap_head_indep d (runSubGo_head_pos e cs (n + 1) (by omega))
          hde k 3]
        exact hrec
    · rw [if_neg hc]
      by_cases hn1 : 1 ≤ n
      · rw [hn hn1] at h ⊢
        rw [runCap_skip_replicate d e hde _ (min n 3) 3 (by omega)]
        by_cases hcd : c = d
        · subst hcd
          rw [runCap_cons_self] at h ⊢
          exact ih 0 2 h (by omega)
        · rw [runCap_cons_ne d c _ hcd] at h ⊢
          exact ih 0 3 h (by omega)
      · have hn0 : n = 0 := by omega
        subst hn0
        rw [show min 0 3 = 0 from rfl, List.replicate, List.nil_append]
        by_cases hcd : c = d
        · subst hcd
          cases k with
          | zero =>
            rw [runCap_cons_self_zero] at h
            cases h
          | succ k' =>
            rw [runCap_cons_self] at h ⊢
            exact ih 0 k' h (by omega)
        · rw [runCap_cons_ne d c _ hcd] at h ⊢
          exact ih 0 3 h (by omega)

lemma runSubGo_id (d : Char) :
    ∀ (l : List Char) (n : Nat), n ≤ 3 → runCap d (3 - n) l = true →
      runSubGo d n l = List.replicate n d ++ l := by
  intro l
  induction l with
  | nil =>
    intro n hn _
    rw [runSubGo_nil, List.append_nil, min_eq_left hn]
  | cons c cs ih =>
    intro n hn h
    rw [runSubGo]
    by_cases hc : c = d
    · rw [if_pos hc]
      have hn2 : n ≤ 2 := by
        by_contra hgt
        have hn3 : n = 3 := by omega
        subst hn3
        have h0 : runCap d 0 (c :: cs) = true := by simpa using h
        rw [hc, runCap_cons_self_zero] at h0
        cases h0
      have h' : runCap d (3 - (n + 1)) cs = true := by
        have heq : 3 - n = (3 - (n + 1)) + 1 := by omega
        rw [heq, hc, runCap_cons_self] at h
        exact h
      rw [ih (n + 1) (by omega) h', hc, List.replicate_succ',
        List.append_assoc, List.singleton_append]
    · rw [if_neg hc]
      have h' : runCap d 3 cs = true := by
        rw [runCap_cons_ne d c cs hc] at h
        exact h
      rw [ih 0 (by omega) (by simpa using h'), min_eq_left hn]
      simp

lemma runSub3_id {d : Char} {l : List Char} (h : runCap d 3 l = true) :
    runSub3 d l = l := by
  have h2 := runSubGo_id d l 0 (by omega) (by simpa using h)
  simpa [runSub3] using h2

/-! ### Prefix and strip facts for the final stages -/

lemma cut_pre (pat : List Char) : ∀ l : List Char, cutAtFirst pat l <+: l := by
  intro l
  induction l with
  | nil => exact ⟨[], rfl⟩
  | cons c cs ih =>
    rw [cutAtFirst]
    by_cases h : startsWithL pat (c :: cs) = true
    · rw [if_pos h]
      exact ⟨c :: cs, rfl⟩
    · rw [if_neg h]
      obtain ⟨t, ht⟩ := ih
      exact ⟨t, by rw [List.cons_append, ht]⟩

lemma dTW_pre : ∀ l : List Char, dropTrailingWs l <+: l := by
  intro l
  induction l with
  | nil => exact ⟨[], rfl⟩
  | cons c cs ih =>
    rw [dropTrailingWs]
    by_cases h : ((dropTrailingWs cs).isEmpty && pyWs c) = true
    · rw [if_pos h]
      exact ⟨c :: cs, rfl⟩
    · rw [if_neg h]
      obtain ⟨t, ht⟩ := ih
      exact ⟨t, by rw [List.cons_append, ht]⟩

lemma dTW_idem : ∀ l : List Char, dropTrailingWs (dropTrailingWs l) = dropTrailingWs l := by
  intro l
  induction l with
  | nil => rfl
  | cons c cs ih =>
    rw [dropTrailingWs]
    by_cases h : ((dropTrailingWs cs).isEmpty && pyWs c) = true
    · rw [if_pos h]
      rfl
    · rw [if_neg h, dropTrailingWs, ih, if_neg h]

lemma head_dropWhile_not (p : Char → Bool) :
    ∀ l : List Char, ∀ c ∈ (l.dropWhile p).head?, p c = false := by
  intro l
  induction l with
  | nil => intro c hc; cases hc
  | cons a cs ih =>
    intro c hc
    rw [List.dropWhile_cons] at hc
    by_cases h : p a = true
    · rw [if_pos h] at hc
      exact ih c hc
    · rw [if_neg h] at hc
      have hac : a = c := by
        simpa [Option.mem_def] using hc
      rw [← hac]
      cases hp : p a with
      | false => rfl
      | true => exact absurd hp h

lemma dropWhile_id_of_head (p : Char → Bool) :
    ∀ l : List Char, (∀ c ∈ l.head?, p c = false) → l.dropWhile p = l := by
  intro l h
  cases l with
  | nil => rfl
  | cons a cs =>
    rw [List.dropWhile_cons, if_neg]
    rw [h a rfl]
    exact Bool.false_ne_true

lemma pre_head : ∀ x y : List Char, y <+: x → y = [] ∨ y.head? = x.head? := by
  intro x y hp
  obtain ⟨t, rfl⟩ := hp
  cases y with
  | nil => exact Or.inl rfl
  | cons a ys => exact Or.inr rfl

lemma pyStripL_idem : ∀ l : List Char, pyStripL (pyStripL l) = pyStripL l := by
  intro l
  show pyStripL (dropTrailingWs (l.dropWhile (fun c => pyWs c))) = _
  have h1 : (dropTrailingWs (l.dropWhile (fun c => pyWs c))).dropWhile
      (fun c => pyWs c) = dropTrailingWs (l.dropWhile (fun c => pyWs c)) := by
    refine dropWhile_id_of_head _ _ ?_
    intro c hc
    rcases pre_head _ _ (dTW_pre (l.dropWhile (fun c => pyWs c))) with hnil | hhd
    · rw [hnil] at hc
      cases hc
    · rw [hhd] at hc
      exact head_dropWhile_not _ l c hc
  show dropTrailingWs ((dropTrailingWs
    (l.dropWhile (fun c => pyWs c))).dropWhile (fun c => pyWs c)) = pyStripL l
  rw [h1]
  show dropTrailingWs (dropTrailingWs (l.dropWhile (fun c => pyWs c))) =
    dropTrailingWs (l.dropWhile (fun c => pyWs c))
  rw [dTW_idem]

/-! ### Corollaries: the invariants survive each stage -/

lemma insert_wsok (p q : Char → Bool) (hpw : ∀ x, p x = true → pyWs x = false)
    (hqw : ∀ y, q y = true → pyWs y = false) {l : List Char} (h : WsOk l) :
    WsOk (insertSpaceSub p q l) := by
  constructor
  · intro c hc hw
    rcases insertSpaceSub_mem p q l c hc with rfl | hm
    · rfl
    · exact h.1 c hm hw
  · refine insertSpaceSub_chain p q _ ?_ ?_ l h.2
    · intro x hx hcon
      rw [hpw x hx] at hcon
      cases hcon.1
    · intro y hy hcon
      rw [hqw y hy] at hcon
      cases hcon.2

lemma runSub3_wsok {d : Char} (hd : pyWs d = false) {l : List Char}
    (h : WsOk l) : WsOk (runSub3 d l) := by
  constructor
  · intro c hc hw
    rcases runSubGo_mem d l 0 c hc with rfl | hm
    · rw [hd] at hw
      cases hw
    · exact h.1 c hm hw
  · exact runSubGo_chain d _ l 0 h.2 (fun hn => absurd hn (by omega))
      (fun hn => absurd hn (by omega))

lemma camelSubL_id {l : List Char} (h : NoPairs lowAZ upAZ l) :
    camelSubL l = l := insertSpaceSub_id _ _ l h

lemma sentenceSubL_id {l : List Char} (h : NoPairs sentC upAZ l) :
    sentenceSubL l = l := insertSpaceSub_id _ _ l h

lemma dotsSubL_id {l : List Char} (h : runCap '.' 3 l = true) :
    dotsSubL l = l := runSub3_id h

lemma dashSubL_id {l : List Char} (h : runCap '-' 3 l = true) :
    dashSubL l = l := runSub3_id h

/-! ### Assembling the invariants of `cleanTextL` output -/

lemma cleanTextL_stages (l : List Char) :
    cleanTextL l = pyStripL (cutCopyrightL (dashSubL (dotsSubL (sentenceSubL
      (camelSubL (collapseWsL (stripNavL l))))))) := by
  have hb : WsOk (collapseWsL (stripNavL l)) := collapseWsL_wsok _
  unfold cleanTextL
  rw [sp3go_id (wsok_no_nl hb), sp4L_id hb]

lemma after_camel (b : List Char) (hb : WsOk b) :
    WsOk (camelSubL b) ∧ NoPairs lowAZ upAZ (camelSubL b) := by
  constructor
  · exact insert_wsok lowAZ upAZ (fun x hx => lowAZ_not_ws hx)
      (fun y hy => upAZ_not_ws hy) hb
  · exact insertSpaceSub_nopairs lowAZ upAZ (by decide) (by decide)
      (fun x hx => upAZ_not_lowAZ hx) b

lemma after_sent (c : List Char) (h1 : WsOk c) (h2 : NoPairs lowAZ upAZ c) :
    WsOk (sentenceSubL c) ∧ NoPairs lowAZ upAZ (sentenceSubL c) ∧
      NoPairs sentC upAZ (sentenceSubL c) := by
  refine ⟨?_, ?_, ?_⟩
  · exact insert_wsok sentC upAZ (fun x hx => sentC_not_ws hx)
      (fun y hy => upAZ_not_ws hy) h1
  · exact insertSpaceSub_chain sentC upAZ _
      (fun x _ hcon => absurd hcon.2 (by decide))
      (fun y _ hcon => absurd hcon.1 (by decide)) c h2
  · exact insertSpaceSub_nopairs sentC upAZ (by decide) (by decide)
      (fun x hx => upAZ_not_sentC hx) c

lemma after_dots (dd : List Char) (h3 : WsOk dd)
    (h4 : NoPairs lowAZ upAZ dd) (h5 : NoPairs sentC upAZ dd) :
    WsOk (dotsSubL dd) ∧ NoPairs lowAZ upAZ (dotsSubL dd) ∧
      NoPairs sentC upAZ (dotsSubL dd) ∧ runCap '.' 3 (dotsSubL dd) = true := by
  refine ⟨runSub3_wsok (by decide) h3, ?_, ?_, runSubGo_runCap '.' dd 0⟩
  · exact runSubGo_chain '.' _ dd 0 h4 (fun hn => absurd hn (by omega))
      (fun hn => absurd hn (by omega))
  · exact runSubGo_chain '.' _ dd 0 h5 (fun hn => absurd hn (by omega))
      (fun hn => absurd hn (by omega))

lemma after_dash (e : List Char) (h7 : WsOk e) (h8 : NoPairs lowAZ upAZ e)
    (h9 : NoPairs sentC upAZ e) (h10 : runCap '.' 3 e = true) :
    WsOk (dashSubL e) ∧ NoPairs lowAZ upAZ (dashSubL e) ∧
      NoPairs sentC upAZ (dashSubL e) ∧ runCap '.' 3 (dashSubL e) = true ∧
      runCap '-' 3 (dashSubL e) = true := by
  refine ⟨runSub3_wsok (by decide) h7, ?_, ?_, ?_, runSubGo_runCap '-' e 0⟩
  · exact runSubGo_chain '-' _ e 0 h8 (fun hn => absurd hn (by omega))
      (fun hn => absurd hn (by omega))
  · exact runSubGo_chain '-' _ e 0 h9 (fun hn => absurd hn (by omega))
      (fun hn => absurd hn (by omega))
  · exact runSubGo_runCap_other '.' '-' (by decide) e 0 3 h10
      (fun hn => absurd hn (by omega))

lemma after_cut (f : List Char) (h11 : WsOk f) (h12 : NoPairs lowAZ upAZ f)
    (h13 : NoPairs sentC upAZ f) (h14 : runCap '.' 3 f = true)
    (h15 : runCap '-' 3 f = true) :
    WsOk (cutCopyrightL f) ∧ NoPairs lowAZ upAZ (cutCopyrightL f) ∧
      NoPairs sentC upAZ (cutCopyrightL f) ∧
      runCap '.' 3 (cutCopyrightL f) = true ∧
      runCap '-' 3 (cutCopyrightL f) = true := by
  have hpre : cutCopyrightL f <+: f := cut_pre ("Copyright".data) f
  exact ⟨wsok_of_pre h11 hpre, chain_of_pre h12 hpre, chain_of_pre h13 hpre,
    runCap_of_pre h14 hpre, runCap_of_pre h15 hpre⟩

lemma after_strip (g : List Char) (h16 : WsOk g) (h17 : NoPairs lowAZ upAZ g)
    (h18 : NoPairs sentC upAZ g) (h19 : runCap '.' 3 g = true)
    (h20 : runCap '-' 3 g = true) :
    WsOk (pyStripL g) ∧ NoPairs lowAZ upAZ (pyStripL g) ∧
      NoPairs sentC upAZ (pyStripL g) ∧
      runCap '.' 3 (pyStripL g) = true ∧
      runCap '-' 3 (pyStripL g) = true ∧
      pyStripL (pyStripL g) = pyStripL g := by
  have hsuf : List.dropWhile (fun c => pyWs c) g <:+ g :=
    ⟨List.takeWhile (fun c => pyWs c) g,
      List.takeWhile_append_dropWhile (fun c => pyWs c) g⟩
  have hpre : pyStripL g <+: List.dropWhile (fun c => pyWs c) g := dTW_pre _
  have hw : WsOk (pyStripL g) := wsok_of_pre (wsok_of_suf h16 hsuf) hpre
  have hc1 : NoPairs lowAZ upAZ (pyStripL g) :=
    chain_of_pre (chain_of_suf h17 hsuf) hpre
  have hc2 : NoPairs sentC upAZ (pyStripL g) :=
    chain_of_pre (chain_of_suf h18 hsuf) hpre
  have hr1 : runCap '.' 3 (pyStripL g) = true :=
    runCap_of_pre (runCap_of_suf h19 hsuf) hpre
  have hr2 : runCap '-' 3 (pyStripL g) = true :=
    runCap_of_pre (runCap_of_suf h20 hsuf) hpre
  exact ⟨hw, hc1, hc2, hr1, hr2, pyStripL_idem g⟩

lemma cleanTextL_invariants (l : List Char) :
    WsOk (cleanTextL l) ∧ NoPairs lowAZ upAZ (cleanTextL l) ∧
      NoPairs sentC upAZ (cleanTextL l) ∧ runCap '.' 3 (cleanTextL l) = true ∧
      runCap '-' 3 (cleanTextL l) = true ∧
      pyStripL (cleanTextL l) = cleanTextL l := by
  rw [cleanTextL_stages l]
  generalize stripNavL l = m
  obtain ⟨w1, w2⟩ := after_camel (collapseWsL m) (collapseWsL_wsok m)
  obtain ⟨x1, x2, x3⟩ := after_sent _ w1 w2
  obtain ⟨y1, y2, y3, y4⟩ := after_dots _ x1 x2 x3
  obtain ⟨z1, z2, z3, z4, z5⟩ := after_dash _ y1 y2 y3 y4
  obtain ⟨u1, u2, u3, u4, u5⟩ := after_cut _ z1 z2 z3 z4 z5
  exact after_strip _ u1 u2 u3 u4 u5

lemma cleanTextL_fixed (t : List Char) (hw : WsOk t)
    (hc1 : NoPairs lowAZ upAZ t) (hc2 : NoPairs sentC upAZ t)
    (hr1 : runCap '.' 3 t = true) (hr2 : runCap '-' 3 t = true)
    (hstrip : pyStripL t = t) (hnav : stripNavL t = t)
    (hcut : cutCopyrightL t = t) : cleanTextL t = t := by
  rw [cleanTextL_stages t, hnav, collapseWsL_id hw, camelSubL_id hc1,
    sentenceSubL_id hc2, dotsSubL_id hr1, dashSubL_id hr2, hcut, hstrip]

lemma clean_text_data (s : String) :
    (clean_text s).data = cleanTextL s.data := by
  unfold clean_text
  generalize cleanTextL s.data = d
  rfl

lemma stripNav_data (s : String) :
    (stripNav s).data = stripNavL s.data := by
  unfold stripNav
  generalize stripNavL s.data = d
  rfl

lemma cutCopyright_data (s : String) :
    (cutCopyright s).data = cutCopyrightL s.data := by
  unfold cutCopyright
  generalize cutCopyrightL s.data = d
  rfl

set_option maxRecDepth 80000 in
set_option maxHeartbeats 2000000 in
/-- C1 (counterexample): `clean_text` is not idempotent, neither
unconditionally nor merely on inputs free of boilerplate/copyright markers.
For `s = "Journal LoJournal Logogo"` the first pass yields `"Journal Logo"`,
which the second pass erases (it is itself a boilerplate pattern).  For
`s = "PrivacyPolicy"` the input contains no boilerplate pattern occurrence and
no copyright marker (`stripNav` and `cutCopyright` leave it unchanged), yet
the first pass yields `"Privacy Policy"` and the second pass erases it. -/
theorem clean_text_idempotence_counterexample :
    clean_text (clean_text "Journal LoJournal Logogo") ≠
      clean_text "Journal LoJournal Logogo" ∧
    clean_text "Journal LoJournal Logogo" = "Journal Logo" ∧
    clean_text (clean_text "Journal LoJournal Logogo") = "" ∧
    stripNav "PrivacyPolicy" = "PrivacyPolicy" ∧
    cutCopyright "PrivacyPolicy" = "PrivacyPolicy" ∧
    clean_text "PrivacyPolicy" = "Privacy Policy" ∧
    clean_text (clean_text "PrivacyPolicy") ≠ clean_text "PrivacyPolicy" := by
  exact ⟨by decide, by decide, by decide, by decide, by decide, by decide,
    by decide⟩

set_option maxRecDepth 80000 in
lemma hello_stripNav :
    stripNav (clean_text "Hello there my friends") =
      clean_text "Hello there my friends" := by decide

set_option maxRecDepth 80000 in
lemma hello_cutCopyright :
    cutCopyright (clean_text "Hello there my friends") =
      clean_text "Hello there my friends" := by decide

attribute [irreducible] clean_text cleanTextL stripNav stripNavL cutCopyright cutCopyrightL in
set_option linter.constructorNameAsVariable false in
/-- C1 (amended): `clean_text` is idempotent on every string `s` whose cleaned
output is left unchanged by the boilerplate-pattern removal stage and by the
copyright-truncation stage: if `stripNav (clean_text s) = clean_text s` and
`cutCopyright (clean_text s) = clean_text s`, then
`clean_text (clean_text s) = clean_text s`. -/
theorem clean_text_idempotent_on_marker_free (s : String)
    (h1 : stripNav (clean_text s) = clean_text s)
    (h2 : cutCopyright (clean_text s) = clean_text s) :
    clean_text (clean_text s) = clean_text s := by
  obtain ⟨hw, hc1, hc2, hr1, hr2, hstrip⟩ := cleanTextL_invariants s.data
  have h1l := congrArg String.data h1
  rw [stripNav_data, clean_text_data] at h1l
  have h2l := congrArg String.data h2
  rw [cutCopyright_data, clean_text_data] at h2l
  apply String.ext
  rw [clean_text_data, clean_text_data]

  exact cleanTextL_fixed (cleanTextL s.data) hw hc1 hc2 hr1 hr2 hstrip h1l h2l


/-- Witness for C1 (amended) at the concrete input `"Hello there my friends"`:
its cleaned form is a fixed point of the boilerplate and copyright stages, so
`clean_text` is idempotent on it. -/
theorem clean_text_idempotent_on_marker_free_witness :
    clean_text (clean_text "Hello there my friends") =
      clean_text "Hello there my friends" :=
  clean_text_idempotent_on_marker_free "Hello there my friends"
    hello_stripNav hello_cutCopyright
